import Mathlib

/-!
Verification of the users-and-groups data model and sync orchestration of the
thoughtspot/user_tools repository (files tsut/model.py, tsut/api.py, tsut/util.py).

The Python source is shallowly embedded:
- Python strings are Lean Strings; str.strip is pyStrip, str.endswith is
  pyEndsWith and str.lower is pyLower (character-wise Char.toLower, matching
  Python semantics on the basic latin range that the tool manipulates).
- Python OrderedDict is an insertion-ordered association list with unique keys;
  updating an existing key keeps its position, a new key is appended.
- Optional / possibly-None Python values are Option; Python exceptions are
  Except.error; Python truthiness of a string or list is non-emptiness.
- The JSON wire format produced by UsersAndGroups.to_json (via obj_to_json,
  which emits one flat object per principal and skips falsy attributes) is
  modelled as a list of flat records with one Option field per attribute;
  a none field models the attribute being omitted from the serialized object.
- Network effects of the api layer are modelled as a trace of transport calls
  (Event list); the HTTP session is taken as authenticated and sync responses
  as successful, since the claims under study concern which calls are
  dispatched, not the transport's own failures.  Password-update responses are
  an oracle parameter because their outcome drives control flow.
-/

namespace Tsut

/-- Model of Python str.lower restricted to basic latin, the same restriction as
Lean's Char.toLower. -/
def pyLower (s : String) : String := ⟨s.data.map Char.toLower⟩

/-- Model of Python str.strip (no arguments): leading and trailing whitespace
removed.  Implemented over the character list so that proofs can evaluate it. -/
def pyStrip (s : String) : String :=
  ⟨((s.data.dropWhile Char.isWhitespace).reverse.dropWhile Char.isWhitespace).reverse⟩

/-- Model of Python str.endswith, implemented over the character list so that
proofs can evaluate it. -/
def pyEndsWith (s : String) (suffix : String) : Bool :=
  suffix.data.isSuffixOf s.data

theorem Char.toLower_idem (c : Char) : c.toLower.toLower = c.toLower := by
  have key : ∀ n : Nat, 65 ≤ n → n ≤ 90 → (Char.ofNat (n + 32)).toNat = n + 32 := by
    intro n h1 h2
    have hv : Nat.isValidChar (n + 32) := Or.inl (by omega)
    rw [Char.ofNat, dif_pos hv]
    rfl
  unfold Char.toLower
  by_cases h : c.toNat ≥ 65 ∧ c.toNat ≤ 90
  · rw [if_pos h]
    rw [if_neg]
    rw [key c.toNat h.1 h.2]
    omega
  · rw [if_neg h, if_neg h]

theorem pyLower_idem (s : String) : pyLower (pyLower s) = pyLower s := by
  have h : Char.toLower ∘ Char.toLower = Char.toLower := funext Char.toLower_idem
  show String.mk ((s.data.map Char.toLower).map Char.toLower) = String.mk (s.data.map Char.toLower)
  rw [List.map_map, h]

/-- Insertion-ordered dictionary lookup (Python dict.get). -/
def odGet (m : List (String × α)) (k : String) : Option α :=
  (m.find? (fun p => p.1 == k)).map (fun p => p.2)

/-- Insertion-ordered dictionary assignment (Python d[k] = v): an existing key
keeps its position, a fresh key is appended at the end. -/
def odSet (m : List (String × α)) (k : String) (v : α) : List (String × α) :=
  if (m.find? (fun p => p.1 == k)).isSome then
    m.map (fun p => if p.1 == k then (k, v) else p)
  else
    m ++ [(k, v)]

/-- Visibility constants from model.py. -/
def Visibility.DEFAULT : String := "DEFAULT"

/-- Visibility constant NON_SHAREABLE from model.py (note the source spells the
value NON_SHARABLE). -/
def Visibility.NON_SHAREABLE : String := "NON_SHARABLE"

/-- Embedding of model.py class User: the attributes set by User.__init__. -/
structure User where
  principalTypeEnum : String
  name : String
  displayName : Option String
  password : Option String
  mail : Option String
  created : Option String
  groupNames : List String
  visibility : Option String
  id : Option String
  deriving Repr, DecidableEq

/-- Embedding of User.__init__.  Note the source line
self.displayName = display_name if not None else name: the condition not None
is always true in Python, so the first branch is always taken and displayName
is exactly the display_name argument (None when the caller does not pass one).
The visibility parameter defaults to Visibility.DEFAULT at the Python call
sites that omit it; callers of this embedding pass it explicitly. -/
def mkUser (name : String) (password : Option String) (mail : Option String)
    (display_name : Option String) (group_names : Option (List String))
    (visibility : Option String) (created : Option String) (user_id : Option String) : User :=
  { principalTypeEnum := "LOCAL_USER"
    name := pyStrip name
    displayName := display_name
    password := password
    mail := mail
    created := created
    groupNames := match group_names with
      | none => []
      | some gns => gns
    visibility := visibility
    id := user_id }

/-- Embedding of model.py class Group: the attributes set by Group.__init__. -/
structure Group where
  principalTypeEnum : String
  name : String
  displayName : Option String
  description : Option String
  visibility : Option String
  privileges : Option (List String)
  created : Option String
  groupNames : List String
  deriving Repr, DecidableEq

/-- Embedding of Group.__init__.  As in mkUser, the source line
self.displayName = display_name if not None else name always takes its first
branch, and likewise self.privileges = copy.copy(privileges) if not None else []
always evaluates copy.copy(privileges), which is None when privileges is None. -/
def mkGroup (name : String) (display_name : Option String) (description : Option String)
    (group_names : Option (List String)) (visibility : Option String)
    (privileges : Option (List String)) (created : Option String) : Group :=
  { principalTypeEnum := "LOCAL_GROUP"
    name := pyStrip name
    displayName := display_name
    description := description
    visibility := visibility
    privileges := privileges
    created := created
    groupNames := match group_names with
      | none => []
      | some gns => gns }

/-- The four duplicate-handling flags of UsersAndGroups (source values 0..3). -/
inductive DupPolicy where
  | RAISE_ERROR_ON_DUPLICATE
  | IGNORE_ON_DUPLICATE
  | OVERWRITE_ON_DUPLICATE
  | UPDATE_ON_DUPLICATE
  deriving Repr, DecidableEq

/-- Embedding of the UsersAndGroups container: two insertion-ordered mappings,
users keyed by lowercased name and groups keyed by exact name. -/
structure UsersAndGroups where
  users : List (String × User)
  groups : List (String × Group)
  deriving Repr, DecidableEq

/-- Embedding of UsersAndGroups.__init__. -/
def emptyUGs : UsersAndGroups := { users := [], groups := [] }

/-- Embedding of UsersAndGroups.get_user: dict lookup under the lowercased name. -/
def UsersAndGroups.get_user (self : UsersAndGroups) (user_name : String) : Option User :=
  odGet self.users (pyLower user_name)

/-- Embedding of UsersAndGroups.has_user. -/
def UsersAndGroups.has_user (self : UsersAndGroups) (user_name : String) : Bool :=
  (odGet self.users (pyLower user_name)).isSome

/-- Embedding of UsersAndGroups.get_group: dict lookup under the exact name. -/
def UsersAndGroups.get_group (self : UsersAndGroups) (group_name : String) : Option Group :=
  odGet self.groups group_name

/-- Embedding of UsersAndGroups.get_users: the values of the users mapping in
insertion order (a snapshot list). -/
def UsersAndGroups.get_users (self : UsersAndGroups) : List User :=
  self.users.map (fun p => p.2)

/-- Embedding of UsersAndGroups.get_groups. -/
def UsersAndGroups.get_groups (self : UsersAndGroups) : List Group :=
  self.groups.map (fun p => p.2)

/-- Embedding of UsersAndGroups.number_users. -/
def UsersAndGroups.number_users (self : UsersAndGroups) : Nat := self.users.length

/-- Embedding of UsersAndGroups.number_groups. -/
def UsersAndGroups.number_groups (self : UsersAndGroups) : Nat := self.groups.length

/-- Embedding of UsersAndGroups.add_user.  The key is the lowercased user name;
the duplicate lookup goes through get_user as in the source (which lowercases
again).  A raised Python exception is Except.error. -/
def UsersAndGroups.add_user (self : UsersAndGroups) (u : User)
    (duplicate : DupPolicy) : Except String UsersAndGroups :=
  let l_username := pyLower u.name
  match self.get_user l_username with
  | none => .ok { self with users := odSet self.users l_username u }
  | some user =>
    match duplicate with
    | .RAISE_ERROR_ON_DUPLICATE => .error ("Duplicate user " ++ u.name)
    | .IGNORE_ON_DUPLICATE => .ok self
    | .OVERWRITE_ON_DUPLICATE => .ok { self with users := odSet self.users l_username u }
    | .UPDATE_ON_DUPLICATE =>
      -- u.groupNames.extend(user.groupNames); self.users[l_username] = u
      let u2 := { u with groupNames := u.groupNames ++ user.groupNames }
      .ok { self with users := odSet self.users l_username u2 }

/-- Embedding of UsersAndGroups.add_group.  The key is the exact group name.
Under UPDATE_ON_DUPLICATE the source mutates the existing group object in
place (group.groupNames.extend(g.groupNames)) and keeps it in the container. -/
def UsersAndGroups.add_group (self : UsersAndGroups) (g : Group)
    (duplicate : DupPolicy) : Except String UsersAndGroups :=
  match self.get_group g.name with
  | none => .ok { self with groups := odSet self.groups g.name g }
  | some group =>
    match duplicate with
    | .RAISE_ERROR_ON_DUPLICATE => .error ("Duplicate group " ++ g.name)
    | .IGNORE_ON_DUPLICATE => .ok self
    | .OVERWRITE_ON_DUPLICATE => .ok { self with groups := odSet self.groups g.name g }
    | .UPDATE_ON_DUPLICATE =>
      let group2 := { group with groupNames := group.groupNames ++ g.groupNames }
      .ok { self with groups := odSet self.groups g.name group2 }

/-- Result type of UsersAndGroups.is_valid (the ValidationResults namedtuple). -/
structure ValidationResults where
  result : Bool
  issues : List String
  deriving Repr, DecidableEq

/-- Embedding of UsersAndGroups.is_valid: one issue is appended for every
group reference (of a user or of a group) that is not a key of the groups
mapping; the user loop runs first, then the group loop.  The valid flag starts
true and is set false exactly when an issue is appended, so it equals the
emptiness of the issue list. -/
def UsersAndGroups.is_valid (self : UsersAndGroups) : ValidationResults :=
  let userIssues : List String :=
    self.users.flatMap (fun p =>
      (p.2.groupNames.filter (fun parent_group => (odGet self.groups parent_group).isNone)).map
        (fun parent_group =>
          "user group " ++ parent_group ++ " for user " ++ p.2.name ++ " does not exist"))
  let groupIssues : List String :=
    self.groups.flatMap (fun p =>
      (p.2.groupNames.filter (fun parent_group => (odGet self.groups parent_group).isNone)).map
        (fun parent_group =>
          "parent group " ++ parent_group ++ " for group " ++ p.2.name ++ " does not exist"))
  let issues := userIssues ++ groupIssues
  { result := issues.isEmpty, issues := issues }

/-- Model of one flat JSON object of the serialized wire format: every public
attribute that obj_to_json may emit, none meaning the attribute is absent
(obj_to_json skips attributes whose value is falsy). -/
structure PrincipalRec where
  principalTypeEnum : Option String
  name : Option String
  displayName : Option String
  password : Option String
  mail : Option String
  created : Option String
  groupNames : Option (List String)
  visibility : Option String
  id : Option String
  description : Option String
  privileges : Option (List String)
  deriving Repr, DecidableEq

/-- Attribute emission rule of obj_to_json for a string attribute: skipped when
falsy (empty). -/
def strOpt (s : String) : Option String :=
  if s = "" then none else some s

/-- Attribute emission rule of obj_to_json for an optional string attribute:
skipped when None or empty. -/
def optStrOpt : Option String → Option String
  | none => none
  | some s => strOpt s

/-- Attribute emission rule of obj_to_json for a list attribute: skipped when
falsy (empty). -/
def listOpt (l : List String) : Option (List String) :=
  if l = [] then none else some l

/-- Attribute emission rule of obj_to_json for an optional list attribute. -/
def optListOpt : Option (List String) → Option (List String)
  | none => none
  | some l => listOpt l

/-- Embedding of User.to_json (obj_to_json over the user's public attributes):
the flat record with falsy attributes omitted. -/
def User.to_json (u : User) : PrincipalRec :=
  { principalTypeEnum := strOpt u.principalTypeEnum
    name := strOpt u.name
    displayName := optStrOpt u.displayName
    password := optStrOpt u.password
    mail := optStrOpt u.mail
    created := optStrOpt u.created
    groupNames := listOpt u.groupNames
    visibility := optStrOpt u.visibility
    id := optStrOpt u.id
    description := none
    privileges := none }

/-- Embedding of Group.to_json. -/
def Group.to_json (g : Group) : PrincipalRec :=
  { principalTypeEnum := strOpt g.principalTypeEnum
    name := strOpt g.name
    displayName := optStrOpt g.displayName
    password := none
    mail := none
    created := optStrOpt g.created
    groupNames := listOpt g.groupNames
    visibility := optStrOpt g.visibility
    id := none
    description := optStrOpt g.description
    privileges := optListOpt g.privileges }

/-- Embedding of User.create_from_json.  Passing name=None to User.__init__
raises AttributeError in Python (None.strip()), modelled as Except.error. -/
def User.create_from_json (json_obj : PrincipalRec) : Except String User :=
  match json_obj.name with
  | none => .error "AttributeError"
  | some n =>
    .ok (mkUser n json_obj.password json_obj.mail json_obj.displayName
      json_obj.groupNames json_obj.visibility none none)

/-- Embedding of Group.create_from_json. -/
def Group.create_from_json (json_obj : PrincipalRec) : Except String Group :=
  match json_obj.name with
  | none => .error "AttributeError"
  | some n =>
    .ok (mkGroup n json_obj.displayName json_obj.description
      json_obj.groupNames json_obj.visibility none none)

/-- Embedding of UsersAndGroups.to_json: a single flat array holding every
group record first (in insertion order), then every user record. -/
def UsersAndGroups.to_json (self : UsersAndGroups) : List PrincipalRec :=
  self.groups.map (fun p => p.2.to_json) ++ self.users.map (fun p => p.2.to_json)

/-- Embedding of UsersAndGroups.load_from_json: each record is dispatched on
the principalTypeEnum discriminator; a suffix _GROUP loads a group (added with
the default RAISE_ERROR_ON_DUPLICATE policy), a suffix _USER loads a user, any
other value is only reported to stderr and skipped.  A record without a
discriminator crashes in Python (None.endswith), modelled as Except.error. -/
def UsersAndGroups.load_from_json (self : UsersAndGroups)
    (recs : List PrincipalRec) : Except String UsersAndGroups :=
  match recs with
  | [] => .ok self
  | obj :: rest =>
    match obj.principalTypeEnum with
    | none => .error "AttributeError"
    | some t =>
      if pyEndsWith t "_GROUP" then
        match Group.create_from_json obj with
        | .error e => .error e
        | .ok group =>
          match self.add_group group DupPolicy.RAISE_ERROR_ON_DUPLICATE with
          | .error e => .error e
          | .ok self2 => self2.load_from_json rest
      else if pyEndsWith t "_USER" then
        match User.create_from_json obj with
        | .error e => .error e
        | .ok user =>
          match self.add_user user DupPolicy.RAISE_ERROR_ON_DUPLICATE with
          | .error e => .error e
          | .ok self2 => self2.load_from_json rest
      else
        self.load_from_json rest

/-! Embedding of tsut/api.py: the sync orchestration.  Network activity is a
trace of transport calls; log warnings that the claims mention are traced as
well. -/

/-- The privilege constants of class Privileges. -/
def Privileges.AllPrivileges : List String :=
  ["BYPASSRLS", "JOBSCHEDULING", "DEVELOPER", "DATAMANAGEMENT",
   "USERDATAUPLOADING", "EXPERIMENTALFEATUREPRIVILEGE", "A3ANALYSIS",
   "ADMINISTRATION", "RANALYSIS", "DATADOWNLOADING", "SHAREWITHALL"]

/-- One transport call issued by the sync layer. -/
inductive Call where
  | getAll
  | sync (ugs : UsersAndGroups) (apply_changes : Bool) (remove_deleted : Bool)
  | removePrivilege (groups : List String) (privilege : String)
  | addPrivilege (groups : List String) (privilege : String)
  | updatePassword (userid : String) (password : String)
  deriving Repr, DecidableEq

/-- One traced event: a transport call or a logged warning. -/
inductive Event where
  | call (c : Call)
  | warning (msg : String)
  deriving Repr, DecidableEq

/-- Embedding of SyncUserAndGroups._set_group_privileges.  The candidate list
excludes the protected system groups; when it is empty the method returns
before any call.  With apply_changes, one remove call per enumerated privilege
is issued against the whole candidate list (response failures are caught and
ignored in the source), then one add call per privilege whose candidate set is
non-empty. -/
def _set_group_privileges (users_and_groups : UsersAndGroups)
    (apply_changes : Bool) : List Event :=
  let group_names : List String :=
    (users_and_groups.get_groups.filter
      (fun group => !(group.name == "All" || group.name == "Administrator"))).map
      (fun group => group.name)
  if group_names = [] then []
  else
    let removes : List Event :=
      if apply_changes then
        Privileges.AllPrivileges.map
          (fun priv => Event.call (Call.removePrivilege group_names priv))
      else []
    let adds : List Event :=
      Privileges.AllPrivileges.filterMap (fun priv =>
        let groups_with_priv := group_names.filter (fun group_name =>
          match users_and_groups.get_group group_name with
          | none => false
          | some group =>
            match group.privileges with
            | none => false
            | some privs => !privs.isEmpty && privs.contains priv)
        if groups_with_priv = [] then none
        else if apply_changes then
          some (Event.call (Call.addPrivilege groups_with_priv priv))
        else none)
    removes ++ adds

/-- Embedding of SyncUserAndGroups._sync_users_and_groups: the container is
validated and, on failure, an exception aborts before any transport call; on
success exactly one sync call is dispatched (its response is modelled as
successful, see the header comment). -/
def _sync_users_and_groups (users_and_groups : UsersAndGroups)
    (apply_changes : Bool) (remove_deleted : Bool) : List Event × Except String Unit :=
  if (users_and_groups.is_valid).result = false then
    ([], .error "Invalid users and groups")
  else
    ([Event.call (Call.sync users_and_groups apply_changes remove_deleted)], .ok ())

/-- Inner loop of the batch builder: the groups of one batched user are added
to the batch under IGNORE_ON_DUPLICATE.  A dangling group name makes
get_group return None, and add_group(None) raises AttributeError in Python. -/
def addUserGroups (users_and_groups : UsersAndGroups) (gns : List String)
    (acc : UsersAndGroups) : Except String UsersAndGroups :=
  match gns with
  | [] => .ok acc
  | group_name :: rest =>
    match users_and_groups.get_group group_name with
    | none => .error "AttributeError"
    | some g =>
      match acc.add_group g DupPolicy.IGNORE_ON_DUPLICATE with
      | .error e => .error e
      | .ok acc2 => addUserGroups users_and_groups rest acc2

/-- Batch construction of sync_users_and_groups: each user of the slice is
looked up in the source container and added (default duplicate policy), then
that user's groups are added under IGNORE_ON_DUPLICATE. -/
def buildBatchAux (users_and_groups : UsersAndGroups) (user_batch : List User)
    (acc : UsersAndGroups) : Except String UsersAndGroups :=
  match user_batch with
  | [] => .ok acc
  | user :: rest =>
    match users_and_groups.get_user user.name with
    | none => .error "AttributeError"
    | some u =>
      match acc.add_user u DupPolicy.RAISE_ERROR_ON_DUPLICATE with
      | .error e => .error e
      | .ok acc2 =>
        match addUserGroups users_and_groups user.groupNames acc2 with
        | .error e => .error e
        | .ok acc3 => buildBatchAux users_and_groups rest acc3

/-- Builds the per-slice UsersAndGroups of one batch. -/
def buildBatch (users_and_groups : UsersAndGroups) (user_batch : List User) :
    Except String UsersAndGroups :=
  buildBatchAux users_and_groups user_batch emptyUGs

/-- The successive slices taken by the batching while-loop
(user_batch = all_users[:batch_size]; del all_users[:batch_size]).  The loop
is only entered with batch_size > 0; for bs ≥ 1 the head pattern below equals
List.take bs. -/
def chunksOf (bs : Nat) : List α → List (List α)
  | [] => []
  | x :: xs => (x :: xs.take (bs - 1)) :: chunksOf bs (xs.drop (bs - 1))
termination_by l => l.length
decreasing_by
  simp only [List.length_cons, List.length_drop]
  omega

/-- The batching while-loop of sync_users_and_groups: one batch is built and
synced per slice, in order; an exception (batch construction failure or the
validation failure inside _sync_users_and_groups) aborts the remaining
slices. -/
def syncBatches (users_and_groups : UsersAndGroups) (apply_changes : Bool)
    (remove_deleted : Bool) : List (List User) → List Event × Except String Unit
  | [] => ([], .ok ())
  | user_batch :: rest =>
    match buildBatch users_and_groups user_batch with
    | .error e => ([], .error e)
    | .ok ug_batch =>
      let p := _sync_users_and_groups ug_batch apply_changes remove_deleted
      match p.2 with
      | .error e => (p.1, .error e)
      | .ok _ =>
        let q := syncBatches users_and_groups apply_changes remove_deleted rest
        (p.1 ++ q.1, q.2)

/-- Transport outcome of one update-password request, as classified by
update_user_password: status 204, the specific status-500 response whose body
says the new password equals the current one, or any other failure. -/
inductive PwOutcome where
  | success
  | unchanged
  | failure
  deriving Repr, DecidableEq

/-- Embedding of SyncUserAndGroups.update_user_password: the call is always
dispatched; a 204 response succeeds silently, the specific password-unchanged
failure only logs a warning, and any other response raises ConnectionError. -/
def update_user_password (userid : String) (password : String)
    (outcome : PwOutcome) : List Event × Except String Unit :=
  let ev := Event.call (Call.updatePassword userid password)
  match outcome with
  | .success => ([ev], .ok ())
  | .unchanged =>
    ([ev, Event.warning ("Unable to update password for " ++ userid ++ " because it did not change.")],
     .ok ())
  | .failure => ([ev], .error ("Error updating user password for " ++ userid))

/-- Python truthiness of user.password: a non-None, non-empty string. -/
def hasPassword (u : User) : Bool :=
  match u.password with
  | none => false
  | some p => !(p == "")

/-- The password-update loop at the end of sync_users_and_groups: every user
carrying a truthy password gets one update_user_password call; a raised
ConnectionError propagates and aborts the remaining users. -/
def passwordPass (users : List User) (outcomes : String → PwOutcome) :
    List Event × Except String Unit :=
  match users with
  | [] => ([], .ok ())
  | user :: rest =>
    if hasPassword user then
      let r := update_user_password user.name
        (match user.password with | none => "" | some p => p) (outcomes user.name)
      match r.2 with
      | .error e => (r.1, .error e)
      | .ok _ =>
        let q := passwordPass rest outcomes
        (r.1 ++ q.1, q.2)
    else
      passwordPass rest outcomes

/-- First-occurrence deduplication, the model of the Python set of group names
built by __add_all_user_groups (set iteration order is unspecified in Python;
it is modelled as first-occurrence order). -/
def dedupFirst : List String → List String
  | [] => []
  | x :: xs => x :: dedupFirst (xs.filter (fun y => !(y == x)))
termination_by l => l.length
decreasing_by
  simp only [List.length_cons]
  exact Nat.lt_succ_of_le (List.length_filter_le _ _)

/-- Embedding of SyncUserAndGroups.__add_all_user_groups: every group name
referenced by a user of the new container but absent from it is added, taken
from the original container when present there, otherwise synthesized as an
implicitly created placeholder group; additions use IGNORE_ON_DUPLICATE. -/
def __add_all_user_groups (original_ugs : UsersAndGroups)
    (new_ugs : UsersAndGroups) : Except String UsersAndGroups :=
  let new_user_groups := dedupFirst (new_ugs.get_users.flatMap (fun u => u.groupNames))
  new_user_groups.foldlM (fun acc group_name =>
    match acc.get_group group_name with
    | some _ => .ok acc
    | none =>
      match original_ugs.get_group group_name with
      | some old_group => acc.add_group old_group DupPolicy.IGNORE_ON_DUPLICATE
      | none =>
        acc.add_group
          (mkGroup group_name (some group_name) (some "Implicitly created group.")
            none (some Visibility.DEFAULT) none none)
          DupPolicy.IGNORE_ON_DUPLICATE) new_ugs

/-- Embedding of SyncUserAndGroups.__merge_groups_into_new: for every new user
also present in the original container, the original user's groupNames are
appended to the new user's (an in-place mutation of the user object, modelled
as a keyed update of the container), and every group referenced by the merged
list that exists in the original container is copied in under
OVERWRITE_ON_DUPLICATE. -/
def __merge_groups_into_new (original_ugs : UsersAndGroups)
    (new_ugs : UsersAndGroups) : Except String UsersAndGroups :=
  new_ugs.get_users.foldlM (fun acc new_user =>
    match original_ugs.get_user new_user.name with
    | none => .ok acc
    | some original_user =>
      let merged := { new_user with
        groupNames := new_user.groupNames ++ original_user.groupNames }
      let acc2 := { acc with users := odSet acc.users (pyLower new_user.name) merged }
      merged.groupNames.foldlM (fun acc3 group_name =>
        match original_ugs.get_group group_name with
        | none => .ok acc3
        | some group => acc3.add_group group DupPolicy.OVERWRITE_ON_DUPLICATE) acc2) new_ugs

/-- Embedding of SyncUserAndGroups.sync_users_and_groups.  The guard against
combining remove_deleted with a positive batch_size raises before anything
else touches the network; the optional get-all fetch happens only when
create_groups or merge_groups is requested; dispatch is batched (slices of
batch_size users plus their direct groups) or whole; the optional privilege
diff and password pass follow a successful dispatch.  The remote container
returned by the fetch and the per-user password outcomes are oracle
parameters. -/
def sync_users_and_groups (users_and_groups : UsersAndGroups)
    (apply_changes : Bool) (remove_deleted : Bool) (batch_size : Int)
    (create_groups : Bool) (merge_groups : Bool)
    (set_group_privileges : Bool) (update_passwords : Bool)
    (remote : UsersAndGroups) (pw_outcomes : String → PwOutcome) :
    List Event × Except String Unit :=
  if remove_deleted && decide (batch_size > 0) then
    ([], .error "Cannot have remove_deleted True and batch_size > 0")
  else
    let fetch : List Event :=
      if create_groups || merge_groups then [Event.call Call.getAll] else []
    match (if create_groups then __add_all_user_groups remote users_and_groups
           else .ok users_and_groups) with
    | .error e => (fetch, .error e)
    | .ok uag1 =>
      match (if merge_groups then __merge_groups_into_new remote uag1
             else .ok uag1) with
      | .error e => (fetch, .error e)
      | .ok uag2 =>
        let dispatch :=
          if batch_size > 0 then
            syncBatches uag2 apply_changes remove_deleted
              (chunksOf batch_size.toNat uag2.get_users)
          else
            _sync_users_and_groups uag2 apply_changes remove_deleted
        match dispatch.2 with
        | .error e => (fetch ++ dispatch.1, .error e)
        | .ok _ =>
          let privEvents : List Event :=
            if set_group_privileges then _set_group_privileges uag2 apply_changes
            else []
          let pw : List Event × Except String Unit :=
            if update_passwords && apply_changes then
              passwordPass uag2.get_users pw_outcomes
            else ([], .ok ())
          (fetch ++ dispatch.1 ++ privEvents ++ pw.1, pw.2)

end Tsut

deriving instance DecidableEq for Except

namespace Tsut

/-! Helper constructions used by concrete witnesses and counterexamples, and
general lemmas about the ordered-dictionary embedding. -/

/-- A user built like the typical Python call User(name, group_names=gns):
no password, mail or display name, default visibility. -/
def uN (n : String) (gns : List String) : User :=
  mkUser n none none none (some gns) (some Visibility.DEFAULT) none none

/-- A user with a password, as built by a reader that supplies passwords. -/
def uPw (n : String) (pw : Option String) : User :=
  mkUser n pw none none none (some Visibility.DEFAULT) none none

/-- A group built like the typical Python call Group(name, group_names=gns). -/
def gN (n : String) (gns : List String) : Group :=
  mkGroup n none none (some gns) (some Visibility.DEFAULT) none none

/-- A group carrying a privilege list. -/
def gPriv (n : String) (privs : List String) : Group :=
  mkGroup n none none none (some Visibility.DEFAULT) (some privs) none

/-- A container in the state produced by adding the given users and groups to
an empty container: users keyed by lowercased name, groups by exact name. -/
def containerOf (us : List User) (gs : List Group) : UsersAndGroups :=
  { users := us.map (fun u => (pyLower u.name, u)),
    groups := gs.map (fun g => (g.name, g)) }

theorem odGet_cons (m : List (String × α)) (k k' : String) (v : α) :
    odGet ((k', v) :: m) k = if k' = k then some v else odGet m k := by
  by_cases h : k' = k
  · simp [odGet, List.find?_cons, h]
  · simp [odGet, List.find?_cons, h]

theorem odGet_append (m1 m2 : List (String × α)) (k : String) :
    odGet (m1 ++ m2) k = ((odGet m1 k).orElse (fun _ => odGet m2 k)) := by
  induction m1 with
  | nil => simp [odGet]
  | cons p rest ih =>
    rcases p with ⟨k', v⟩
    by_cases h : k' = k
    · simp [List.cons_append, odGet_cons, h]
    · simp [List.cons_append, odGet_cons, h, ih]

theorem odGet_odSet_self (m : List (String × α)) (k : String) (v : α) :
    odGet (odSet m k v) k = some v := by
  induction m with
  | nil => simp [odSet, odGet]
  | cons p rest ih =>
    rcases p with ⟨k', v'⟩
    by_cases h : k' = k
    · simp [odSet, List.find?_cons, h, odGet_cons]
    · have hfind : ((k', v') :: rest).find? (fun p => p.1 == k)
          = rest.find? (fun p => p.1 == k) := by
        simp [List.find?_cons, h]
      by_cases hs : (rest.find? (fun p => p.1 == k)).isSome
      · have : odSet ((k', v') :: rest) k v
            = (k', v') :: (odSet rest k v) := by
          simp [odSet, hfind, hs, h]
        rw [this, odGet_cons, if_neg h, ih]
      · have : odSet ((k', v') :: rest) k v
            = (k', v') :: (rest ++ [(k, v)]) := by
          simp [odSet, hfind, hs, h]
        rw [this, odGet_cons, if_neg h]
        rw [show rest ++ [(k, v)] = odSet rest k v by simp [odSet, hs]]
        exact ih

theorem odGet_map_keyReplace (m : List (String × α)) (k k' : String) (v : α)
    (h : k ≠ k') :
    odGet (m.map (fun p => if p.1 == k then (k, v) else p)) k' = odGet m k' := by
  induction m with
  | nil => simp [odGet]
  | cons p rest ih =>
    rcases p with ⟨k1, v1⟩
    by_cases h1 : k1 = k
    · subst h1
      simp only [List.map_cons, beq_self_eq_true, if_true]
      rw [odGet_cons, odGet_cons, if_neg h, if_neg h, ih]
    · have : ((fun p => if p.1 == k then (k, v) else p) (k1, v1)) = (k1, v1) := by
        simp [h1]
      simp only [List.map_cons, this]
      rw [odGet_cons, odGet_cons, ih]

theorem odGet_odSet_ne (m : List (String × α)) (k k' : String) (v : α)
    (h : k ≠ k') : odGet (odSet m k v) k' = odGet m k' := by
  unfold odSet
  by_cases hs : (m.find? (fun p => p.1 == k)).isSome
  · rw [if_pos hs]
    exact odGet_map_keyReplace m k k' v h
  · rw [if_neg hs, odGet_append]
    have h1 : odGet [(k, v)] k' = none := by
      simp [odGet_cons, h, odGet]
    rw [h1]
    cases odGet m k' <;> rfl

theorem odGet_isSome_iff (m : List (String × α)) (k : String) :
    (odGet m k).isSome = true ↔ k ∈ m.map Prod.fst := by
  induction m with
  | nil => simp [odGet]
  | cons p rest ih =>
    rcases p with ⟨k', v⟩
    by_cases h : k' = k
    · simp [odGet_cons, h]
    · simp [odGet_cons, h, ih, Ne.symm h]

theorem odGet_eq_some_of_mem_nodup (m : List (String × α)) (k : String) (v : α)
    (hmem : (k, v) ∈ m) (hnd : (m.map Prod.fst).Nodup) : odGet m k = some v := by
  induction m with
  | nil => simp at hmem
  | cons p rest ih =>
    rcases p with ⟨k', v'⟩
    simp only [List.map_cons, List.nodup_cons] at hnd
    rcases List.mem_cons.mp hmem with heq | hrest
    · rw [odGet_cons]
      cases heq
      simp
    · have hk : k' ≠ k := by
        intro h
        subst h
        exact hnd.1 (List.mem_map.mpr ⟨(k', v), hrest, rfl⟩)
      rw [odGet_cons, if_neg hk]
      exact ih hrest hnd.2

theorem mem_of_odGet_eq_some (m : List (String × α)) (k : String) (v : α)
    (h : odGet m k = some v) : (k, v) ∈ m := by
  induction m with
  | nil => simp [odGet] at h
  | cons p rest ih =>
    rcases p with ⟨k', v'⟩
    rw [odGet_cons] at h
    by_cases hk : k' = k
    · rw [if_pos hk] at h
      cases h
      subst hk
      exact List.mem_cons_self _ _
    · rw [if_neg hk] at h
      exact List.mem_cons_of_mem _ (ih h)

/-- C4: the claim says that a User or Group constructed without a display name
gets displayName equal to its trimmed name.  In the source the assignment
self.displayName = display_name if not None else name always takes its first
branch (the condition not None is constantly true), so constructing
User(name=" bob ") leaves displayName = None while the claim (and the
constructor docstring, which promises display_name is set to name when not
provided) demand "bob"; the same slip affects Group. -/
theorem C4_displayName_not_defaulted :
    (mkUser " bob " none none none none (some Visibility.DEFAULT) none none).name = "bob"
    ∧ (mkUser " bob " none none none none (some Visibility.DEFAULT) none none).displayName = none
    ∧ (mkGroup " sales " none none none (some Visibility.DEFAULT) none none).name = "sales"
    ∧ (mkGroup " sales " none none none (some Visibility.DEFAULT) none none).displayName = none := by
  decide

/-- C9: calling sync_users_and_groups with remove_deleted set together with a
positive batch_size raises the configuration exception immediately, with an
empty transport trace: no call of any kind (in particular not the optional
get-all fetch) is issued, whatever the other arguments are. -/
theorem C9_remove_deleted_batch_guard (users_and_groups : UsersAndGroups)
    (apply_changes : Bool) (batch_size : Int)
    (create_groups merge_groups set_privs upd_pw : Bool)
    (remote : UsersAndGroups) (pw_outcomes : String → PwOutcome)
    (hb : 0 < batch_size) :
    sync_users_and_groups users_and_groups apply_changes true batch_size
      create_groups merge_groups set_privs upd_pw remote pw_outcomes
      = ([], .error "Cannot have remove_deleted True and batch_size > 0") := by
  unfold sync_users_and_groups
  have : (true && decide (batch_size > 0)) = true := by simp [hb]
  rw [this]
  simp

/-- Witness for C9 at a concrete input: batch_size 5, all optional stages
requested, remove_deleted set. -/
theorem C9_remove_deleted_batch_guard_witness :
    (0 : Int) < 5
    ∧ sync_users_and_groups (containerOf [uN "u1" []] []) true true 5
        true true true true emptyUGs (fun _ => PwOutcome.success)
      = ([], .error "Cannot have remove_deleted True and batch_size > 0") :=
  ⟨by decide,
   C9_remove_deleted_batch_guard (containerOf [uN "u1" []] []) true 5
     true true true true emptyUGs (fun _ => PwOutcome.success) (by decide)⟩

/-- C2 counterexample: the claim quantifies over every desired UsersAndGroups
and asserts that _set_group_privileges with apply_changes set first issues one
remove-privilege call for every privilege of the enumerated list.  For a
container whose only group is the protected group All, the candidate list is
empty and the method returns before issuing any call at all, although the
enumerated privilege list is non-empty, so not a single remove-privilege call
is issued. -/
theorem C2_counterexample_no_candidates :
    _set_group_privileges (containerOf [] [gPriv "All" ["ADMINISTRATION"]]) true = []
    ∧ Privileges.AllPrivileges ≠ [] := by
  decide

/-- C6: adding a user whose lowercased name is already a key of the container:
with RAISE_ERROR_ON_DUPLICATE an exception is always raised; with
IGNORE_ON_DUPLICATE the container is returned unchanged (the original user
object stays); with OVERWRITE_ON_DUPLICATE the key now maps to the new user
object; with UPDATE_ON_DUPLICATE the key maps to the new user whose
groupNames are the new user's references followed by the existing user's
(appended without deduplication). -/
theorem C6_duplicate_user_policies (self : UsersAndGroups) (u user : User)
    (h : self.get_user u.name = some user) :
    (∃ e, self.add_user u DupPolicy.RAISE_ERROR_ON_DUPLICATE = .error e)
    ∧ (self.add_user u DupPolicy.IGNORE_ON_DUPLICATE = .ok self)
    ∧ (∃ c, self.add_user u DupPolicy.OVERWRITE_ON_DUPLICATE = .ok c
        ∧ c.get_user u.name = some u)
    ∧ (∃ c, self.add_user u DupPolicy.UPDATE_ON_DUPLICATE = .ok c
        ∧ c.get_user u.name
            = some { u with groupNames := u.groupNames ++ user.groupNames }) := by
  have hl : self.get_user (pyLower u.name) = some user := by
    unfold UsersAndGroups.get_user at h ⊢
    rw [pyLower_idem]
    exact h
  refine ⟨?_, ?_, ?_, ?_⟩
  · exact ⟨_, by simp only [UsersAndGroups.add_user, hl]; rfl⟩
  · simp only [UsersAndGroups.add_user, hl]
  · refine ⟨_, by simp only [UsersAndGroups.add_user, hl]; rfl, ?_⟩
    show odGet (odSet self.users (pyLower u.name) u) (pyLower u.name) = some u
    exact odGet_odSet_self _ _ _
  · refine ⟨_, by simp only [UsersAndGroups.add_user, hl]; rfl, ?_⟩
    show odGet (odSet self.users (pyLower u.name) _) (pyLower u.name) = some _
    exact odGet_odSet_self _ _ _

/-- Witness for C6 at a concrete input: the container holds user Bob under key
bob, user BOB is added under each of the four policies. -/
theorem C6_duplicate_user_policies_witness :
    (containerOf [uN "Bob" ["g1"]] []).get_user (uN "BOB" ["g2"]).name
      = some (uN "Bob" ["g1"])
    ∧ ((∃ e, (containerOf [uN "Bob" ["g1"]] []).add_user (uN "BOB" ["g2"])
          DupPolicy.RAISE_ERROR_ON_DUPLICATE = .error e)
      ∧ ((containerOf [uN "Bob" ["g1"]] []).add_user (uN "BOB" ["g2"])
          DupPolicy.IGNORE_ON_DUPLICATE = .ok (containerOf [uN "Bob" ["g1"]] []))
      ∧ (∃ c, (containerOf [uN "Bob" ["g1"]] []).add_user (uN "BOB" ["g2"])
          DupPolicy.OVERWRITE_ON_DUPLICATE = .ok c
          ∧ c.get_user (uN "BOB" ["g2"]).name = some (uN "BOB" ["g2"]))
      ∧ (∃ c, (containerOf [uN "Bob" ["g1"]] []).add_user (uN "BOB" ["g2"])
          DupPolicy.UPDATE_ON_DUPLICATE = .ok c
          ∧ c.get_user (uN "BOB" ["g2"]).name
            = some { uN "BOB" ["g2"] with
                groupNames := (uN "BOB" ["g2"]).groupNames ++ (uN "Bob" ["g1"]).groupNames })) :=
  ⟨by decide,
   C6_duplicate_user_policies (containerOf [uN "Bob" ["g1"]] [])
     (uN "BOB" ["g2"]) (uN "Bob" ["g1"]) (by decide)⟩

/-- C10: the merge-on-duplicate policy is asymmetric.  For a duplicate group,
add_group keeps the existing Group object (its displayName, description,
visibility and privileges survive) and only appends the incoming group's
groupNames to it; for a duplicate user, add_user stores the incoming User
object (the existing user's other attributes are dropped) after appending the
existing user's groupNames to it. -/
theorem C10_update_policy_asymmetry (c : UsersAndGroups) (g exg : Group)
    (u exu : User) (hg : c.get_group g.name = some exg)
    (hu : c.get_user u.name = some exu) :
    (∃ c2, c.add_group g DupPolicy.UPDATE_ON_DUPLICATE = .ok c2
      ∧ c2.get_group g.name
          = some { exg with groupNames := exg.groupNames ++ g.groupNames })
    ∧ (∃ c2, c.add_user u DupPolicy.UPDATE_ON_DUPLICATE = .ok c2
      ∧ c2.get_user u.name
          = some { u with groupNames := u.groupNames ++ exu.groupNames }) := by
  have hl : c.get_user (pyLower u.name) = some exu := by
    unfold UsersAndGroups.get_user at hu ⊢
    rw [pyLower_idem]
    exact hu
  constructor
  · refine ⟨_, by simp only [UsersAndGroups.add_group, hg]; rfl, ?_⟩
    show odGet (odSet c.groups g.name _) g.name = some _
    exact odGet_odSet_self _ _ _
  · refine ⟨_, by simp only [UsersAndGroups.add_user, hl]; rfl, ?_⟩
    show odGet (odSet c.users (pyLower u.name) _) (pyLower u.name) = some _
    exact odGet_odSet_self _ _ _

/-- Witness for C10 at a concrete input: a duplicate group with a different
description and privilege list, and a duplicate user with a password. -/
theorem C10_update_policy_asymmetry_witness :
    (containerOf [uPw "ann" (some "pw")] [gPriv "G" ["DEVELOPER"]]).get_group
        (gN "G" ["parent"]).name = some (gPriv "G" ["DEVELOPER"])
    ∧ (containerOf [uPw "ann" (some "pw")] [gPriv "G" ["DEVELOPER"]]).get_user
        (uN "ann" ["h"]).name = some (uPw "ann" (some "pw"))
    ∧ ((∃ c2, (containerOf [uPw "ann" (some "pw")] [gPriv "G" ["DEVELOPER"]]).add_group
          (gN "G" ["parent"]) DupPolicy.UPDATE_ON_DUPLICATE = .ok c2
          ∧ c2.get_group (gN "G" ["parent"]).name
            = some { gPriv "G" ["DEVELOPER"] with
                groupNames := (gPriv "G" ["DEVELOPER"]).groupNames ++ (gN "G" ["parent"]).groupNames })
      ∧ (∃ c2, (containerOf [uPw "ann" (some "pw")] [gPriv "G" ["DEVELOPER"]]).add_user
          (uN "ann" ["h"]) DupPolicy.UPDATE_ON_DUPLICATE = .ok c2
          ∧ c2.get_user (uN "ann" ["h"]).name
            = some { uN "ann" ["h"] with
                groupNames := (uN "ann" ["h"]).groupNames ++ (uPw "ann" (some "pw")).groupNames })) :=
  ⟨by decide, by decide,
   C10_update_policy_asymmetry (containerOf [uPw "ann" (some "pw")] [gPriv "G" ["DEVELOPER"]])
     (gN "G" ["parent"]) (gPriv "G" ["DEVELOPER"]) (uN "ann" ["h"]) (uPw "ann" (some "pw"))
     (by decide) (by decide)⟩

theorem is_valid_issues_shape (x : UsersAndGroups) :
    (x.is_valid).issues
      = x.users.flatMap (fun p =>
          (p.2.groupNames.filter (fun gn => (odGet x.groups gn).isNone)).map
            (fun gn => "user group " ++ gn ++ " for user " ++ p.2.name ++ " does not exist"))
        ++ x.groups.flatMap (fun p =>
          (p.2.groupNames.filter (fun gn => (odGet x.groups gn).isNone)).map
            (fun gn => "parent group " ++ gn ++ " for group " ++ p.2.name ++ " does not exist")) := rfl

theorem is_valid_result_eq (x : UsersAndGroups) :
    (x.is_valid).result = (x.is_valid).issues.isEmpty := rfl

/-- C7: is_valid returns result false exactly when some group name referenced
by a user or by a group is absent from the groups mapping; its issue list has
exactly one entry per dangling reference occurrence (every occurrence is
reported, the walk does not stop at the first); and with no dangling
reference it returns result true with an empty issue list. -/
theorem C7_is_valid_dangling_references (x : UsersAndGroups) :
    ((x.is_valid).result = false ↔
      ((∃ p ∈ x.users, ∃ gn ∈ p.2.groupNames, x.get_group gn = none)
        ∨ (∃ p ∈ x.groups, ∃ gn ∈ p.2.groupNames, x.get_group gn = none)))
    ∧ (x.is_valid).issues.length
        = ((x.users.map (fun p => p.2.groupNames.countP (fun gn => (x.get_group gn).isNone))).sum
          + (x.groups.map (fun p => p.2.groupNames.countP (fun gn => (x.get_group gn).isNone))).sum)
    ∧ ((x.is_valid).result = true → (x.is_valid).issues = []) := by
  have hememp : ∀ (l : List String) (f : String → String),
      ((l.filter (fun gn => (odGet x.groups gn).isNone)).map f = []
        ↔ ∀ gn ∈ l, ¬ (odGet x.groups gn = none)) := by
    intro l f
    rw [List.map_eq_nil_iff, List.filter_eq_nil_iff]
    constructor
    · intro hall gn hgn hnone
      exact hall gn hgn (by simp [hnone])
    · intro hall gn hgn hpred
      exact hall gn hgn (Option.isNone_iff_eq_none.mp hpred)
  refine ⟨?_, ?_, ?_⟩
  · rw [is_valid_result_eq, is_valid_issues_shape]
    rw [Bool.eq_false_iff, Ne, List.isEmpty_iff, List.append_eq_nil,
        List.flatMap_eq_nil_iff, List.flatMap_eq_nil_iff]
    constructor
    · intro hne
      by_cases hu : ∀ p ∈ x.users, ∀ gn ∈ p.2.groupNames, ¬ (x.get_group gn = none)
      · right
        by_contra hg
        push_neg at hg
        apply hne
        constructor
        · intro p hp
          rw [hememp]
          exact fun gn hgn => hu p hp gn hgn
        · intro p hp
          rw [hememp]
          intro gn hgn hnone
          exact hg p hp gn hgn hnone
      · left
        push_neg at hu
        obtain ⟨p, hp, gn, hgn, hnone⟩ := hu
        exact ⟨p, hp, gn, hgn, hnone⟩
    · rintro (⟨p, hp, gn, hgn, hnone⟩ | ⟨p, hp, gn, hgn, hnone⟩) ⟨hul, hgl⟩
      · have := (hememp _ _).mp (hul p hp)
        exact this gn hgn hnone
      · have := (hememp _ _).mp (hgl p hp)
        exact this gn hgn hnone
  · rw [is_valid_issues_shape]
    rw [List.length_append]
    congr 1
    · rw [List.flatMap_def, List.length_flatten, List.map_map]
      apply congrArg List.sum
      apply List.map_congr_left
      intro p hp
      simp [Function.comp, List.countP_eq_length_filter, UsersAndGroups.get_group]
    · rw [List.flatMap_def, List.length_flatten, List.map_map]
      apply congrArg List.sum
      apply List.map_congr_left
      intro p hp
      simp [Function.comp, List.countP_eq_length_filter, UsersAndGroups.get_group]
  · intro htrue
    rw [is_valid_result_eq] at htrue
    exact List.isEmpty_iff.mp htrue

/-- Recognizer for update-password transport calls in a trace. -/
def isPwCall : Event → Bool
  | Event.call (Call.updatePassword _ _) => true
  | _ => false

/-- The password string Python reads from user.password at the update call
site (the user is only reached when the password is truthy). -/
def pwOf (u : User) : String :=
  match u.password with
  | none => ""
  | some p => p

/-- The events one eligible user contributes to the password pass: the update
call, followed by the logged warning when the outcome is the specific
password-unchanged failure. -/
def pwUserEvents (outcomes : String → PwOutcome) (u : User) : List Event :=
  Event.call (Call.updatePassword u.name (pwOf u))
    :: (if outcomes u.name = PwOutcome.unchanged then
          [Event.warning ("Unable to update password for " ++ u.name ++ " because it did not change.")]
        else [])

/-- C8 counterexample: the claim says a non-"password unchanged" failure of
one user's update does not abort the password updates of the remaining users.
Concretely, with two users u1 and u2 both carrying non-empty passwords, the
transport failing u1's update and ready to accept u2's, the run stops with a
raised error after a single update-password call: u2's update is never
dispatched, although the claim requires two calls. -/
theorem C8_counterexample_abort_on_failure :
    (sync_users_and_groups (containerOf [uPw "u1" (some "p1"), uPw "u2" (some "p2")] [])
        true false (-1) false false false true emptyUGs
        (fun n => if n == "u1" then PwOutcome.failure else PwOutcome.success)).1.countP isPwCall = 1
    ∧ (sync_users_and_groups (containerOf [uPw "u1" (some "p1"), uPw "u2" (some "p2")] [])
        true false (-1) false false false true emptyUGs
        (fun n => if n == "u1" then PwOutcome.failure else PwOutcome.success)).2
      = .error "Error updating user password for u1"
    ∧ hasPassword (uPw "u2" (some "p2")) = true := by
  decide

/-- C8 amended: in the password pass, exactly the users carrying a truthy
(non-None, non-empty) password are eligible for an update call; eligible users
are processed in order, a password-unchanged outcome only adds a logged
warning and processing continues, and the first eligible user whose update
fails with any other error raises, so the remaining eligible users get no
update call (the pass is aborted, unlike what the original claim states). -/
theorem C8_password_pass_behaviour (users : List User) (outcomes : String → PwOutcome) :
    ∃ pre rest,
      users.filter hasPassword = pre ++ rest
      ∧ (∀ u ∈ pre, outcomes u.name ≠ PwOutcome.failure)
      ∧ ((rest = []
            ∧ (passwordPass users outcomes).2 = .ok ()
            ∧ (passwordPass users outcomes).1 = pre.flatMap (pwUserEvents outcomes))
        ∨ (∃ u rest2, rest = u :: rest2
            ∧ outcomes u.name = PwOutcome.failure
            ∧ (passwordPass users outcomes).2
                = .error ("Error updating user password for " ++ u.name)
            ∧ (passwordPass users outcomes).1
                = pre.flatMap (pwUserEvents outcomes)
                  ++ [Event.call (Call.updatePassword u.name (pwOf u))])) := by
  induction users with
  | nil =>
    exact ⟨[], [], by simp, by simp, Or.inl ⟨rfl, rfl, rfl⟩⟩
  | cons user us ih =>
    by_cases hpw : hasPassword user
    · have hfilter : (user :: us).filter hasPassword
          = user :: us.filter hasPassword := by
        simp [List.filter_cons, hpw]
      cases hout : outcomes user.name with
      | failure =>
        refine ⟨[], user :: us.filter hasPassword, by simp [hfilter], by simp, ?_⟩
        right
        refine ⟨user, us.filter hasPassword, rfl, hout, ?_, ?_⟩
        · simp [passwordPass, hpw, update_user_password, hout, pwOf]
        · simp [passwordPass, hpw, update_user_password, hout, pwOf]
      | success =>
        obtain ⟨pre, rest, heq, hpre, hcase⟩ := ih
        refine ⟨user :: pre, rest, by rw [hfilter, heq]; simp, ?_, ?_⟩
        · intro u hu
          rcases List.mem_cons.mp hu with h | h
          · subst h
            simp [hout]
          · exact hpre u h
        · have hstep : passwordPass (user :: us) outcomes
              = (Event.call (Call.updatePassword user.name (pwOf user)) :: (passwordPass us outcomes).1,
                 (passwordPass us outcomes).2) := by
            simp [passwordPass, hpw, update_user_password, hout, pwOf]
          have hev : pwUserEvents outcomes user
              = [Event.call (Call.updatePassword user.name (pwOf user))] := by
            simp [pwUserEvents, hout]
          rcases hcase with ⟨hr, h2, h1⟩ | ⟨u, rest2, hr, ho, h2, h1⟩
          · exact Or.inl ⟨hr, by rw [hstep]; exact h2,
              by rw [hstep]; simp [h1, hev]⟩
          · exact Or.inr ⟨u, rest2, hr, ho, by rw [hstep]; exact h2,
              by rw [hstep]; simp [h1, hev]⟩
      | unchanged =>
        obtain ⟨pre, rest, heq, hpre, hcase⟩ := ih
        refine ⟨user :: pre, rest, by rw [hfilter, heq]; simp, ?_, ?_⟩
        · intro u hu
          rcases List.mem_cons.mp hu with h | h
          · subst h
            simp [hout]
          · exact hpre u h
        · have hstep : passwordPass (user :: us) outcomes
              = (Event.call (Call.updatePassword user.name (pwOf user))
                  :: Event.warning ("Unable to update password for " ++ user.name ++ " because it did not change.")
                  :: (passwordPass us outcomes).1,
                 (passwordPass us outcomes).2) := by
            simp [passwordPass, hpw, update_user_password, hout, pwOf]
          have hev : pwUserEvents outcomes user
              = [Event.call (Call.updatePassword user.name (pwOf user)),
                 Event.warning ("Unable to update password for " ++ user.name ++ " because it did not change.")] := by
            simp [pwUserEvents, hout]
          rcases hcase with ⟨hr, h2, h1⟩ | ⟨u, rest2, hr, ho, h2, h1⟩
          · exact Or.inl ⟨hr, by rw [hstep]; exact h2,
              by rw [hstep]; simp [h1, hev]⟩
          · exact Or.inr ⟨u, rest2, hr, ho, by rw [hstep]; exact h2,
              by rw [hstep]; simp [h1, hev]⟩
    · have hfilter : (user :: us).filter hasPassword = us.filter hasPassword := by
        simp [List.filter_cons, hpw]
      have hstep : passwordPass (user :: us) outcomes = passwordPass us outcomes := by
        simp [passwordPass, hpw]
      obtain ⟨pre, rest, heq, hpre, hcase⟩ := ih
      exact ⟨pre, rest, by rw [hfilter, heq], hpre, by rw [hstep]; exact hcase⟩

/-- Recognizer for sync transport calls in a trace. -/
def isSyncCall : Event → Bool
  | Event.call (Call.sync _ _ _) => true
  | _ => false

/-- The concrete batched run refuting C3: the whole container is valid (u2
references g2, g2 references g3, g3 exists), but with batch_size 1 the second
batch only contains u2 and g2, whose reference to g3 dangles inside the batch. -/
def exC3ugs : UsersAndGroups :=
  containerOf [uN "u1" [], uN "u2" ["g2"]] [gN "g2" ["g3"], gN "g3" []]

/-- C3 counterexample: the claim says that when the UsersAndGroups being
synced fails the validation gate, no sync call is ever dispatched for any
batch.  Running the batched sync on exC3ugs (which is valid as a whole) with
batch_size 1, the second batch fails validation and the run raises the
validation error, but the first batch's sync call has already been dispatched:
the trace contains one sync call. -/
theorem C3_counterexample_partial_sync :
    ((exC3ugs.is_valid).result = true)
    ∧ (sync_users_and_groups exC3ugs true false 1 false false false false emptyUGs
        (fun _ => PwOutcome.success)).1.countP isSyncCall = 1
    ∧ (sync_users_and_groups exC3ugs true false 1 false false false false emptyUGs
        (fun _ => PwOutcome.success)).2 = .error "Invalid users and groups" := by
  have h : chunksOf (1 : Nat) exC3ugs.get_users = [[uN "u1" []], [uN "u2" ["g2"]]] := by
    simp [chunksOf, exC3ugs, containerOf, UsersAndGroups.get_users]
  refine ⟨by decide, ?_, ?_⟩
  · simp only [sync_users_and_groups]
    norm_num
    rw [h]
    decide
  · simp only [sync_users_and_groups]
    norm_num
    rw [h]
    decide

theorem syncBatches_spec (ugs : UsersAndGroups) (ac rd : Bool)
    (chunks : List (List User)) :
    ∃ (k : Nat) (bs : List UsersAndGroups),
      k ≤ chunks.length
      ∧ bs.length = k
      ∧ List.Forall₂ (fun c b => buildBatch ugs c = .ok b ∧ (b.is_valid).result = true)
          (chunks.take k) bs
      ∧ (syncBatches ugs ac rd chunks).1 = bs.map (fun b => Event.call (Call.sync b ac rd))
      ∧ ((k = chunks.length ∧ (syncBatches ugs ac rd chunks).2 = .ok ())
        ∨ (∃ c rest, chunks.drop k = c :: rest
            ∧ ((∃ e, buildBatch ugs c = .error e)
              ∨ (∃ b, buildBatch ugs c = .ok b ∧ (b.is_valid).result = false))
            ∧ (∃ e, (syncBatches ugs ac rd chunks).2 = .error e))) := by
  induction chunks with
  | nil =>
    exact ⟨0, [], by simp, rfl, by simp, by simp [syncBatches], Or.inl ⟨rfl, rfl⟩⟩
  | cons c cs ih =>
    cases hb : buildBatch ugs c with
    | error e =>
      refine ⟨0, [], by simp, rfl, by simp, ?_, ?_⟩
      · simp [syncBatches, hb]
      · right
        exact ⟨c, cs, rfl, Or.inl ⟨e, hb⟩, ⟨e, by simp [syncBatches, hb]⟩⟩
    | ok b =>
      cases hv : (b.is_valid).result with
      | false =>
        have hsync : _sync_users_and_groups b ac rd
            = ([], .error "Invalid users and groups") := by
          simp [_sync_users_and_groups, hv]
        refine ⟨0, [], by simp, rfl, by simp, ?_, ?_⟩
        · simp [syncBatches, hb, hsync]
        · right
          exact ⟨c, cs, rfl, Or.inr ⟨b, hb, hv⟩,
            ⟨"Invalid users and groups", by simp [syncBatches, hb, hsync]⟩⟩
      | true =>
        have hsync : _sync_users_and_groups b ac rd
            = ([Event.call (Call.sync b ac rd)], .ok ()) := by
          simp [_sync_users_and_groups, hv]
        obtain ⟨k, bs, hk, hlen, hfa, htr, hfin⟩ := ih
        refine ⟨k + 1, b :: bs, by simp; omega, by simp [hlen], ?_, ?_, ?_⟩
        · rw [List.take_succ_cons]
          exact List.Forall₂.cons ⟨hb, hv⟩ hfa
        · simp [syncBatches, hb, hsync, htr]
        · rcases hfin with ⟨hkl, hok⟩ | ⟨c2, rest, hdrop, hbad, e, herr⟩
          · left
            refine ⟨by simp [hkl], ?_⟩
            simp [syncBatches, hb, hsync, hok]
          · right
            refine ⟨c2, rest, by simpa using hdrop, hbad, e, ?_⟩
            simp [syncBatches, hb, hsync, herr]

/-- With all reconciliation and follow-up flags off and remove_deleted false,
sync_users_and_groups is exactly its dispatch stage: the batched while-loop
when batch_size is positive, one whole _sync_users_and_groups call otherwise. -/
theorem sync_dispatch_eq (users_and_groups : UsersAndGroups) (apply_changes : Bool)
    (batch_size : Int) (remote : UsersAndGroups) (pw : String → PwOutcome) :
    sync_users_and_groups users_and_groups apply_changes false batch_size
      false false false false remote pw
      = if batch_size > 0 then
          syncBatches users_and_groups apply_changes false
            (chunksOf batch_size.toNat users_and_groups.get_users)
        else _sync_users_and_groups users_and_groups apply_changes false := by
  unfold sync_users_and_groups
  norm_num
  by_cases hb : batch_size > 0
  · rw [if_pos hb]
    rcases hX : syncBatches users_and_groups apply_changes false
        (chunksOf batch_size.toNat users_and_groups.get_users) with ⟨t, r⟩
    cases r with
    | error e => rfl
    | ok a =>
      cases a
      rfl
  · rw [if_neg hb]
    rcases hX : _sync_users_and_groups users_and_groups apply_changes false with ⟨t, r⟩
    cases r with
    | error e => rfl
    | ok a =>
      cases a
      rfl

/-- C3 amended: in the batched path, the validation gate runs per dispatched
batch, immediately before that batch's sync call.  The trace of a batched run
is the sync calls of the longest prefix of batches that build and validate
successfully; if some batch fails to build or fails validation, the run ends
in a raised error, no sync call is dispatched for that batch or any later one,
but the earlier batches' sync calls have already gone out (contrary to the
original claim, the whole operation is not protected from partial sync). -/
theorem C3_per_batch_validation_gate (users_and_groups : UsersAndGroups)
    (apply_changes : Bool) (batch_size : Int) (remote : UsersAndGroups)
    (pw : String → PwOutcome) (hb : 0 < batch_size) :
    ∃ (k : Nat) (bs : List UsersAndGroups),
      k ≤ (chunksOf batch_size.toNat users_and_groups.get_users).length
      ∧ bs.length = k
      ∧ List.Forall₂ (fun c b => buildBatch users_and_groups c = .ok b
            ∧ (b.is_valid).result = true)
          ((chunksOf batch_size.toNat users_and_groups.get_users).take k) bs
      ∧ (sync_users_and_groups users_and_groups apply_changes false batch_size
            false false false false remote pw).1
          = bs.map (fun b => Event.call (Call.sync b apply_changes false))
      ∧ ((k = (chunksOf batch_size.toNat users_and_groups.get_users).length
            ∧ (sync_users_and_groups users_and_groups apply_changes false batch_size
                false false false false remote pw).2 = .ok ())
        ∨ (∃ c rest, (chunksOf batch_size.toNat users_and_groups.get_users).drop k
              = c :: rest
            ∧ ((∃ e, buildBatch users_and_groups c = .error e)
              ∨ (∃ b, buildBatch users_and_groups c = .ok b
                  ∧ (b.is_valid).result = false))
            ∧ (∃ e, (sync_users_and_groups users_and_groups apply_changes false batch_size
                  false false false false remote pw).2 = .error e))) := by
  have hd := sync_dispatch_eq users_and_groups apply_changes batch_size remote pw
  rw [if_pos hb] at hd
  rw [hd]
  exact syncBatches_spec users_and_groups apply_changes false
    (chunksOf batch_size.toNat users_and_groups.get_users)

/-- Witness for C3 at the concrete input exC3ugs with batch_size 1: the
characterization is satisfiable with the hypotheses discharged. -/
theorem C3_per_batch_validation_gate_witness :
    (0 : Int) < 1
    ∧ (∃ (k : Nat) (bs : List UsersAndGroups),
        k ≤ (chunksOf (1 : Int).toNat exC3ugs.get_users).length
        ∧ bs.length = k
        ∧ List.Forall₂ (fun c b => buildBatch exC3ugs c = .ok b
              ∧ (b.is_valid).result = true)
            ((chunksOf (1 : Int).toNat exC3ugs.get_users).take k) bs
        ∧ (sync_users_and_groups exC3ugs true false 1
              false false false false emptyUGs (fun _ => PwOutcome.success)).1
            = bs.map (fun b => Event.call (Call.sync b true false))
        ∧ ((k = (chunksOf (1 : Int).toNat exC3ugs.get_users).length
              ∧ (sync_users_and_groups exC3ugs true false 1
                  false false false false emptyUGs (fun _ => PwOutcome.success)).2 = .ok ())
          ∨ (∃ c rest, (chunksOf (1 : Int).toNat exC3ugs.get_users).drop k = c :: rest
              ∧ ((∃ e, buildBatch exC3ugs c = .error e)
                ∨ (∃ b, buildBatch exC3ugs c = .ok b ∧ (b.is_valid).result = false))
              ∧ (∃ e, (sync_users_and_groups exC3ugs true false 1
                    false false false false emptyUGs (fun _ => PwOutcome.success)).2
                  = .error e)))) :=
  ⟨by decide,
   C3_per_batch_validation_gate exC3ugs true 1 emptyUGs (fun _ => PwOutcome.success)
     (by decide)⟩

/-- The candidate group-name list of the privilege diff: every group of the
container except the protected system groups All and Administrator. -/
def sgpCandidates (x : UsersAndGroups) : List String :=
  (x.get_groups.filter
    (fun group => !(group.name == "All" || group.name == "Administrator"))).map
    (fun group => group.name)

/-- Whether the desired state of the named group carries the privilege: the
group's privileges list is truthy and contains the privilege (the condition of
the add-privilege phase of _set_group_privileges). -/
def groupHasPriv (x : UsersAndGroups) (group_name : String) (priv : String) : Bool :=
  match x.get_group group_name with
  | none => false
  | some group =>
    match group.privileges with
    | none => false
    | some privs => !privs.isEmpty && privs.contains priv

/-- C2 amended: whenever at least one candidate (non-protected) group exists,
the privilege diff with apply_changes set first issues, for every privilege of
the enumerated list in order, one remove-privilege call against the full
candidate list (even for privileges no candidate has), and afterwards at most
one add-privilege call per privilege, present exactly when some candidate's
desired privileges contain it and targeting exactly those candidates.  The
protected groups All and Administrator are never candidates, so no call names
them.  (When the candidate list is empty the method returns with no call at
all, which is what the counterexample exhibits.) -/
theorem C2_privilege_diff (x : UsersAndGroups) (hne : sgpCandidates x ≠ []) :
    _set_group_privileges x true
      = Privileges.AllPrivileges.map
          (fun priv => Event.call (Call.removePrivilege (sgpCandidates x) priv))
        ++ Privileges.AllPrivileges.filterMap (fun priv =>
            if (sgpCandidates x).filter (fun gn => groupHasPriv x gn priv) = [] then none
            else some (Event.call (Call.addPrivilege
              ((sgpCandidates x).filter (fun gn => groupHasPriv x gn priv)) priv)))
    ∧ ("All" ∉ sgpCandidates x ∧ "Administrator" ∉ sgpCandidates x)
    ∧ (∀ gn, gn ∈ sgpCandidates x
        ↔ ∃ g ∈ x.get_groups, g.name = gn ∧ gn ≠ "All" ∧ gn ≠ "Administrator")
    ∧ (∀ gn priv, groupHasPriv x gn priv = true
        ↔ ∃ g, x.get_group gn = some g
            ∧ ∃ privs, g.privileges = some privs ∧ priv ∈ privs) := by
  refine ⟨?_, ?_, ?_, ?_⟩
  · have hne2 : ((x.get_groups.filter
        (fun group => !(group.name == "All" || group.name == "Administrator"))).map
        (fun group => group.name)) ≠ [] := hne
    unfold _set_group_privileges
    rw [if_neg hne2]
    rfl
  · constructor
    · intro hmem
      rw [sgpCandidates, List.mem_map] at hmem
      obtain ⟨g, hg, hname⟩ := hmem
      rw [List.mem_filter] at hg
      rw [hname] at hg
      simp at hg
    · intro hmem
      rw [sgpCandidates, List.mem_map] at hmem
      obtain ⟨g, hg, hname⟩ := hmem
      rw [List.mem_filter] at hg
      rw [hname] at hg
      simp at hg
  · intro gn
    rw [sgpCandidates, List.mem_map]
    constructor
    · rintro ⟨g, hg, hname⟩
      rw [List.mem_filter] at hg
      refine ⟨g, hg.1, hname, ?_, ?_⟩
      · intro h
        have hp := hg.2
        rw [hname, h] at hp
        simp at hp
      · intro h
        have hp := hg.2
        rw [hname, h] at hp
        simp at hp
    · rintro ⟨g, hg, hname, h1, h2⟩
      refine ⟨g, ?_, hname⟩
      rw [List.mem_filter]
      refine ⟨hg, ?_⟩
      rw [hname]
      simp [h1, h2]
  · intro gn priv
    unfold groupHasPriv
    cases hget : x.get_group gn with
    | none => simp
    | some g =>
      show (match g.privileges with
            | none => false
            | some privs => !privs.isEmpty && privs.contains priv) = true
          ↔ ∃ g2, some g = some g2 ∧ ∃ privs, g2.privileges = some privs ∧ priv ∈ privs
      cases hpriv : g.privileges with
      | none =>
        show false = true ↔ _
        simp [hpriv]
      | some privs =>
        show (!privs.isEmpty && privs.contains priv) = true ↔ _
        constructor
        · intro hc
          simp only [Bool.and_eq_true] at hc
          exact ⟨g, rfl, privs, hpriv, by simpa using hc.2⟩
        · rintro ⟨g2, hg2, privs2, hp2, hmem⟩
          injection hg2 with hgg
          subst hgg
          rw [hpriv] at hp2
          injection hp2 with hpp
          subst hpp
          simp only [Bool.and_eq_true, Bool.not_eq_true', List.isEmpty_eq_false]
          constructor
          · intro hnil
            subst hnil
            simp at hmem
          · simpa using hmem

/-- Container for the C2 witness: desired privileges DATAMANAGEMENT on G1 and
G2, DEVELOPER on G2 only; the protected group All is also present. -/
def exC2ugs : UsersAndGroups :=
  containerOf [] [gPriv "G1" ["DATAMANAGEMENT"],
                  gPriv "G2" ["DATAMANAGEMENT", "DEVELOPER"],
                  gPriv "All" ["ADMINISTRATION"]]

/-- Witness for C2 at exC2ugs: candidates are G1 and G2 and the hypotheses are
discharged concretely. -/
theorem C2_privilege_diff_witness :
    sgpCandidates exC2ugs ≠ []
    ∧ (_set_group_privileges exC2ugs true
        = Privileges.AllPrivileges.map
            (fun priv => Event.call (Call.removePrivilege (sgpCandidates exC2ugs) priv))
          ++ Privileges.AllPrivileges.filterMap (fun priv =>
              if (sgpCandidates exC2ugs).filter (fun gn => groupHasPriv exC2ugs gn priv) = [] then none
              else some (Event.call (Call.addPrivilege
                ((sgpCandidates exC2ugs).filter (fun gn => groupHasPriv exC2ugs gn priv)) priv)))
      ∧ ("All" ∉ sgpCandidates exC2ugs ∧ "Administrator" ∉ sgpCandidates exC2ugs)
      ∧ (∀ gn, gn ∈ sgpCandidates exC2ugs
          ↔ ∃ g ∈ exC2ugs.get_groups, g.name = gn ∧ gn ≠ "All" ∧ gn ≠ "Administrator")
      ∧ (∀ gn priv, groupHasPriv exC2ugs gn priv = true
          ↔ ∃ g, exC2ugs.get_group gn = some g
              ∧ ∃ privs, g.privileges = some privs ∧ priv ∈ privs)) :=
  ⟨by decide, C2_privilege_diff exC2ugs (by decide)⟩

theorem is_valid_true_of_no_dangling (x : UsersAndGroups)
    (hu : ∀ p ∈ x.users, ∀ gn ∈ p.2.groupNames, (odGet x.groups gn).isSome = true)
    (hg : ∀ p ∈ x.groups, ∀ gn ∈ p.2.groupNames, (odGet x.groups gn).isSome = true) :
    (x.is_valid).result = true := by
  rw [is_valid_result_eq, is_valid_issues_shape, List.isEmpty_iff, List.append_eq_nil]
  constructor
  · rw [List.flatMap_eq_nil_iff]
    intro p hp
    rw [List.map_eq_nil_iff, List.filter_eq_nil_iff]
    intro gn hgn
    have := hu p hp gn hgn
    simp [Option.isNone, Option.isSome] at this ⊢
    cases hoc : odGet x.groups gn with
    | none => rw [hoc] at this; simp at this
    | some g => simp
  · rw [List.flatMap_eq_nil_iff]
    intro p hp
    rw [List.map_eq_nil_iff, List.filter_eq_nil_iff]
    intro gn hgn
    have := hg p hp gn hgn
    simp [Option.isNone, Option.isSome] at this ⊢
    cases hoc : odGet x.groups gn with
    | none => rw [hoc] at this; simp at this
    | some g => simp

theorem chunksOf_flatten (bs : Nat) (l : List α) : (chunksOf bs l).flatten = l := by
  have H : ∀ (n : Nat) (l : List α), l.length ≤ n → (chunksOf bs l).flatten = l := by
    intro n
    induction n with
    | zero =>
      intro l hl
      have : l = [] := List.eq_nil_of_length_eq_zero (Nat.le_zero.mp hl)
      subst this
      simp [chunksOf]
    | succ n ih =>
      intro l hl
      cases l with
      | nil => simp [chunksOf]
      | cons x xs =>
        rw [chunksOf]
        rw [List.flatten_cons]
        rw [ih (xs.drop (bs - 1)) (by simp only [List.length_cons] at hl; simp [List.length_drop]; omega)]
        simp [List.cons_append, List.take_append_drop]
  exact H l.length l le_rfl

theorem chunksOf_mem_props (bs : Nat) (hbs : 0 < bs) (l : List α) :
    ∀ c ∈ chunksOf bs l, c ≠ [] ∧ c.length ≤ bs := by
  have H : ∀ (n : Nat) (l : List α), l.length ≤ n →
      ∀ c ∈ chunksOf bs l, c ≠ [] ∧ c.length ≤ bs := by
    intro n
    induction n with
    | zero =>
      intro l hl c hc
      have : l = [] := List.eq_nil_of_length_eq_zero (Nat.le_zero.mp hl)
      subst this
      simp [chunksOf] at hc
    | succ n ih =>
      intro l hl c hc
      cases l with
      | nil => simp [chunksOf] at hc
      | cons x xs =>
        rw [chunksOf] at hc
        rcases List.mem_cons.mp hc with heq | hrest
        · subst heq
          refine ⟨by simp, ?_⟩
          simp only [List.length_cons, List.length_take]
          omega
        · exact ih (xs.drop (bs - 1)) (by simp only [List.length_cons] at hl; simp [List.length_drop]; omega) c hrest
  exact H l.length l le_rfl

theorem chunksOf_dropLast_full (bs : Nat) (hbs : 0 < bs) (l : List α) :
    ∀ c ∈ (chunksOf bs l).dropLast, c.length = bs := by
  have H : ∀ (n : Nat) (l : List α), l.length ≤ n →
      ∀ c ∈ (chunksOf bs l).dropLast, c.length = bs := by
    intro n
    induction n with
    | zero =>
      intro l hl c hc
      have : l = [] := List.eq_nil_of_length_eq_zero (Nat.le_zero.mp hl)
      subst this
      simp [chunksOf] at hc
    | succ n ih =>
      intro l hl c hc
      cases l with
      | nil => simp [chunksOf] at hc
      | cons x xs =>
        rw [chunksOf] at hc
        cases hdrop : xs.drop (bs - 1) with
        | nil =>
          rw [hdrop] at hc
          simp [chunksOf] at hc
        | cons y ys =>
          rw [hdrop, chunksOf] at hc
          rw [show ((x :: xs.take (bs - 1)) :: (y :: ys.take (bs - 1)) :: chunksOf bs (ys.drop (bs - 1))).dropLast
              = (x :: xs.take (bs - 1)) :: ((y :: ys.take (bs - 1)) :: chunksOf bs (ys.drop (bs - 1))).dropLast
            from rfl] at hc
          rcases List.mem_cons.mp hc with heq | hrest
          · subst heq
            have hlen : bs - 1 ≤ xs.length := by
              by_contra hcon
              push_neg at hcon
              have : xs.drop (bs - 1) = [] := List.drop_eq_nil_of_le (by omega)
              rw [this] at hdrop
              exact List.noConfusion hdrop
            simp only [List.length_cons, List.length_take]
            omega
          · have hle : (y :: ys).length ≤ n := by
              have := congrArg List.length hdrop
              simp [List.length_drop] at this
              simp only [List.length_cons] at this ⊢
              simp only [List.length_cons] at hl
              omega
            have := ih (y :: ys) hle c
            rw [chunksOf] at this
            exact this hrest
  exact H l.length l le_rfl

theorem chunksOf_sublist (bs : Nat) (l : List α) :
    ∀ c ∈ chunksOf bs l, c.Sublist l := by
  have H : ∀ (n : Nat) (l : List α), l.length ≤ n →
      ∀ c ∈ chunksOf bs l, c.Sublist l := by
    intro n
    induction n with
    | zero =>
      intro l hl c hc
      have : l = [] := List.eq_nil_of_length_eq_zero (Nat.le_zero.mp hl)
      subst this
      simp [chunksOf] at hc
    | succ n ih =>
      intro l hl c hc
      cases l with
      | nil => simp [chunksOf] at hc
      | cons x xs =>
        rw [chunksOf] at hc
        rcases List.mem_cons.mp hc with heq | hrest
        · subst heq
          exact List.Sublist.cons₂ x (List.take_sublist _ _)
        · have hsub := ih (xs.drop (bs - 1)) (by simp only [List.length_cons] at hl; simp [List.length_drop]; omega) c hrest
          exact hsub.trans ((List.drop_sublist _ _).trans (List.sublist_cons_self x xs))
  exact H l.length l le_rfl

theorem odGet_eq_none_iff (m : List (String × α)) (k : String) :
    odGet m k = none ↔ k ∉ m.map Prod.fst := by
  rw [← odGet_isSome_iff]
  cases h : odGet m k <;> simp

theorem find?_eq_none_of_not_mem (m : List (String × α)) (k : String)
    (h : k ∉ m.map Prod.fst) : m.find? (fun p => p.1 == k) = none := by
  rw [List.find?_eq_none]
  rintro ⟨k1, v1⟩ hmem
  simp only [beq_iff_eq]
  intro heq
  subst heq
  exact h (List.mem_map.mpr ⟨(k1, v1), hmem, rfl⟩)

theorem addUserGroups_spec (ugs : UsersAndGroups)
    (hgkeys : ∀ p ∈ ugs.groups, p.1 = p.2.name) :
    ∀ (gns : List String) (acc : UsersAndGroups),
    (∀ gn ∈ gns, (ugs.get_group gn).isSome = true) →
    ((acc.groups.map Prod.fst).Nodup) →
    (∀ kg ∈ acc.groups, ugs.get_group kg.1 = some kg.2) →
    ∃ B, addUserGroups ugs gns acc = .ok B
      ∧ B.users = acc.users
      ∧ (B.groups.map Prod.fst).Nodup
      ∧ (∀ kg ∈ B.groups, ugs.get_group kg.1 = some kg.2)
      ∧ (∀ kg, kg ∈ B.groups ↔ kg ∈ acc.groups
          ∨ (kg.1 ∈ gns ∧ ugs.get_group kg.1 = some kg.2)) := by
  intro gns
  induction gns with
  | nil =>
    intro acc h1 h2 h3
    exact ⟨acc, rfl, rfl, h2, h3, by simp⟩
  | cons gn rest ih =>
    intro acc h1 h2 h3
    have hgn : (ugs.get_group gn).isSome = true := h1 gn (by simp)
    obtain ⟨g, hg⟩ := Option.isSome_iff_exists.mp hgn
    have hgname : g.name = gn := by
      have hmem := mem_of_odGet_eq_some _ _ _ hg
      exact (hgkeys (gn, g) hmem).symm
    have hvaluniq : ∀ k2, ugs.get_group gn = some k2 → k2 = g := by
      intro k2 hk
      rw [hg] at hk
      exact (Option.some.injEq _ _ ▸ hk).symm
    cases hacc : acc.get_group g.name with
    | some g0 =>
      have hstep : addUserGroups ugs (gn :: rest) acc = addUserGroups ugs rest acc := by
        simp [addUserGroups, hg, UsersAndGroups.add_group, hacc]
      have hgmem : (gn, g) ∈ acc.groups := by
        have hmem0 := mem_of_odGet_eq_some _ _ _ hacc
        have hval := h3 (g.name, g0) hmem0
        have : g0 = g := by
          apply hvaluniq
          rw [← hgname]
          exact hval
        rw [this] at hmem0
        rw [hgname] at hmem0
        exact hmem0
      obtain ⟨B, hB, hu, hnd, hsub, hiff⟩ :=
        ih acc (fun a ha => h1 a (by simp [ha])) h2 h3
      refine ⟨B, by rw [hstep]; exact hB, hu, hnd, hsub, ?_⟩
      intro kg
      rw [hiff]
      constructor
      · rintro (h | ⟨hin, hkg⟩)
        · exact Or.inl h
        · exact Or.inr ⟨by simp [hin], hkg⟩
      · rintro (h | ⟨hin, hkg⟩)
        · exact Or.inl h
        · rcases List.mem_cons.mp hin with heq | hin2
          · left
            have hk2 : kg.2 = g := hvaluniq kg.2 (heq ▸ hkg)
            have : kg = (gn, g) := by
              rw [← heq, ← hk2]
            rw [this]
            exact hgmem
          · exact Or.inr ⟨hin2, hkg⟩
    | none =>
      have hkeyfree : g.name ∉ acc.groups.map Prod.fst :=
        (odGet_eq_none_iff _ _).mp hacc
      have hfind : acc.groups.find? (fun p => p.1 == g.name) = none :=
        find?_eq_none_of_not_mem _ _ hkeyfree
      have hstep : addUserGroups ugs (gn :: rest) acc
          = addUserGroups ugs rest
              { acc with groups := acc.groups ++ [(g.name, g)] } := by
        simp [addUserGroups, hg, UsersAndGroups.add_group, hacc, odSet, hfind]
      have hnd2 : (({ acc with groups := acc.groups ++ [(g.name, g)] } :
          UsersAndGroups).groups.map Prod.fst).Nodup := by
        simp only [List.map_append, List.map_cons, List.map_nil]
        rw [List.nodup_append]
        exact ⟨h2, List.nodup_singleton _,
          by simpa [List.disjoint_singleton] using hkeyfree⟩
      have hsub2 : ∀ kg ∈ ({ acc with groups := acc.groups ++ [(g.name, g)] } :
          UsersAndGroups).groups, ugs.get_group kg.1 = some kg.2 := by
        intro kg hkg
        rcases List.mem_append.mp hkg with h | h
        · exact h3 kg h
        · rcases List.mem_singleton.mp h with rfl
          rw [hgname]
          exact hg
      obtain ⟨B, hB, hu, hnd, hsub, hiff⟩ :=
        ih { acc with groups := acc.groups ++ [(g.name, g)] }
          (fun a ha => h1 a (by simp [ha])) hnd2 hsub2
      refine ⟨B, by rw [hstep]; exact hB, hu, hnd, hsub, ?_⟩
      intro kg
      rw [hiff]
      simp only [List.mem_append, List.mem_singleton]
      constructor
      · rintro ((h | h) | ⟨hin, hkg⟩)
        · exact Or.inl h
        · have h1e : kg.1 = g.name := congrArg Prod.fst h
          have h2e : kg.2 = g := congrArg Prod.snd h
          refine Or.inr ⟨by simp [h1e, hgname], ?_⟩
          rw [h1e, hgname, h2e]
          exact hg
        · exact Or.inr ⟨by simp [hin], hkg⟩
      · rintro (h | ⟨hin, hkg⟩)
        · exact Or.inl (Or.inl h)
        · rcases List.mem_cons.mp hin with heq | hin2
          · left
            right
            have hk2 : kg.2 = g := hvaluniq kg.2 (heq ▸ hkg)
            have hk1 : kg.1 = g.name := by rw [heq, hgname]
            exact Prod.ext hk1 hk2
          · exact Or.inr ⟨hin2, hkg⟩

theorem buildBatchAux_spec (ugs : UsersAndGroups)
    (hgkeys : ∀ p ∈ ugs.groups, p.1 = p.2.name) :
    ∀ (slice : List User) (acc : UsersAndGroups),
    (∀ u ∈ slice, ugs.get_user u.name = some u) →
    (∀ u ∈ slice, ∀ gn ∈ u.groupNames, (ugs.get_group gn).isSome = true) →
    (∀ u ∈ slice, pyLower u.name ∉ acc.users.map Prod.fst) →
    ((slice.map (fun u => pyLower u.name)).Nodup) →
    ((acc.groups.map Prod.fst).Nodup) →
    (∀ kg ∈ acc.groups, ugs.get_group kg.1 = some kg.2) →
    ∃ B, buildBatchAux ugs slice acc = .ok B
      ∧ B.users = acc.users ++ slice.map (fun u => (pyLower u.name, u))
      ∧ (B.groups.map Prod.fst).Nodup
      ∧ (∀ kg ∈ B.groups, ugs.get_group kg.1 = some kg.2)
      ∧ (∀ kg, kg ∈ B.groups ↔ kg ∈ acc.groups
          ∨ (kg.1 ∈ slice.flatMap (fun u => u.groupNames)
            ∧ ugs.get_group kg.1 = some kg.2)) := by
  intro slice
  induction slice with
  | nil =>
    intro acc husers hrefs hfresh hsnd hgnd hsub
    exact ⟨acc, rfl, by simp, hgnd, hsub, by simp⟩
  | cons user rest ih =>
    intro acc husers hrefs hfresh hsnd hgnd hsub
    have hu : ugs.get_user user.name = some user := husers user (by simp)
    have hkey : pyLower user.name ∉ acc.users.map Prod.fst :=
      hfresh user (by simp)
    have hlookup : acc.get_user (pyLower user.name) = none := by
      unfold UsersAndGroups.get_user
      rw [pyLower_idem]
      exact (odGet_eq_none_iff _ _).mpr hkey
    have hfind : acc.users.find? (fun p => p.1 == pyLower user.name) = none :=
      find?_eq_none_of_not_mem _ _ hkey
    have hadd : acc.add_user user DupPolicy.RAISE_ERROR_ON_DUPLICATE
        = .ok { acc with users := acc.users ++ [(pyLower user.name, user)] } := by
      simp [UsersAndGroups.add_user, hlookup, odSet, hfind]
    have hstep : buildBatchAux ugs (user :: rest) acc
        = match addUserGroups ugs user.groupNames
            { acc with users := acc.users ++ [(pyLower user.name, user)] } with
          | .error e => .error e
          | .ok acc3 => buildBatchAux ugs rest acc3 := by
      simp [buildBatchAux, hu, hadd]
    obtain ⟨B2, hB2, hu2, hnd2, hsub2, hiff2⟩ :=
      addUserGroups_spec ugs hgkeys user.groupNames
        { acc with users := acc.users ++ [(pyLower user.name, user)] }
        (fun gn hgn => hrefs user (by simp) gn hgn) hgnd hsub
    have hfresh2 : ∀ u ∈ rest, pyLower u.name ∉ B2.users.map Prod.fst := by
      intro u hur
      rw [hu2]
      simp only [List.map_append, List.map_cons, List.map_nil, List.mem_append,
        List.mem_singleton]
      rintro (h | h)
      · exact hfresh u (by simp [hur]) h
      · have : pyLower user.name ≠ pyLower u.name := by
          have := hsnd
          simp only [List.map_cons, List.nodup_cons] at this
          intro heq
          exact this.1 (List.mem_map.mpr ⟨u, hur, heq.symm⟩)
        exact this h.symm
    have hsnd2 : ((rest.map (fun u => pyLower u.name)).Nodup) := by
      have := hsnd
      simp only [List.map_cons, List.nodup_cons] at this
      exact this.2
    obtain ⟨B, hB, huB, hndB, hsubB, hiffB⟩ :=
      ih B2 (fun u hur => husers u (by simp [hur]))
        (fun u hur => hrefs u (by simp [hur])) hfresh2 hsnd2 hnd2 hsub2
    refine ⟨B, ?_, ?_, hndB, hsubB, ?_⟩
    · rw [hstep, hB2]
      exact hB
    · rw [huB, hu2]
      simp [List.append_assoc]
    · intro kg
      rw [hiffB, hiff2]
      simp only [List.flatMap_cons, List.mem_append]
      constructor
      · rintro ((h | ⟨h1, h2⟩) | ⟨h1, h2⟩)
        · exact Or.inl h
        · exact Or.inr ⟨Or.inl h1, h2⟩
        · exact Or.inr ⟨Or.inr h1, h2⟩
      · rintro (h | ⟨h1 | h1, h2⟩)
        · exact Or.inl (Or.inl h)
        · exact Or.inl (Or.inr ⟨h1, h2⟩)
        · exact Or.inr ⟨h1, h2⟩

/-- Characterization of one built batch: given a well-formed source container,
a slice of its users (without duplicate keys) builds successfully into a batch
holding exactly the slice's users, keyed by lowercased name in slice order,
plus exactly the groups directly referenced by those users, taken from the
source container; when the source's groups have no parent groups the batch
also passes validation. -/
theorem buildBatch_spec (ugs : UsersAndGroups)
    (hgkeys : ∀ p ∈ ugs.groups, p.1 = p.2.name)
    (hnopar : ∀ p ∈ ugs.groups, p.2.groupNames = [])
    (slice : List User)
    (husers : ∀ u ∈ slice, ugs.get_user u.name = some u)
    (hrefs : ∀ u ∈ slice, ∀ gn ∈ u.groupNames, (ugs.get_group gn).isSome = true)
    (hsnd : (slice.map (fun u => pyLower u.name)).Nodup) :
    ∃ B, buildBatch ugs slice = .ok B
      ∧ B.users = slice.map (fun u => (pyLower u.name, u))
      ∧ (∀ kg, kg ∈ B.groups ↔ kg.1 ∈ slice.flatMap (fun u => u.groupNames)
          ∧ ugs.get_group kg.1 = some kg.2)
      ∧ (B.is_valid).result = true := by
  obtain ⟨B, hB, huB, hndB, hsubB, hiffB⟩ :=
    buildBatchAux_spec ugs hgkeys slice emptyUGs husers hrefs
      (by intro u hu; simp [emptyUGs]) hsnd (by simp [emptyUGs]) (by simp [emptyUGs])
  have hiff : ∀ kg, kg ∈ B.groups ↔ kg.1 ∈ slice.flatMap (fun u => u.groupNames)
      ∧ ugs.get_group kg.1 = some kg.2 := by
    intro kg
    rw [hiffB]
    simp [emptyUGs]
  refine ⟨B, hB, by rw [huB]; simp [emptyUGs], hiff, ?_⟩
  apply is_valid_true_of_no_dangling
  · intro p hp gn hgn
    rw [huB] at hp
    simp only [emptyUGs, List.nil_append] at hp
    obtain ⟨u, hu, hpu⟩ := List.mem_map.mp hp
    have hgn2 : gn ∈ u.groupNames := by
      rw [← hpu] at hgn
      exact hgn
    have hsome := hrefs u hu gn hgn2
    obtain ⟨g, hg⟩ := Option.isSome_iff_exists.mp hsome
    have hmem : (gn, g) ∈ B.groups := by
      rw [hiff]
      exact ⟨List.mem_flatMap.mpr ⟨u, hu, hgn2⟩, hg⟩
    rw [odGet_isSome_iff]
    exact List.mem_map.mpr ⟨(gn, g), hmem, rfl⟩
  · intro p hp gn hgn
    have := hsubB p hp
    have hmem : (p.1, p.2) ∈ ugs.groups := mem_of_odGet_eq_some _ _ _ this
    have hempty := hnopar (p.1, p.2) hmem
    rw [hempty] at hgn
    simp at hgn

theorem syncBatches_all_ok (ugs : UsersAndGroups) (ac rd : Bool) :
    ∀ (chunks : List (List User)) (bs : List UsersAndGroups),
    List.Forall₂ (fun c b => buildBatch ugs c = .ok b
        ∧ (b.is_valid).result = true) chunks bs →
    syncBatches ugs ac rd chunks
      = (bs.map (fun b => Event.call (Call.sync b ac rd)), .ok ()) := by
  intro chunks
  induction chunks with
  | nil =>
    intro bs hfa
    cases hfa
    simp [syncBatches]
  | cons c cs ih =>
    intro bs hfa
    cases hfa with
    | cons hcb hrest =>
      rename_i b bs2
      obtain ⟨hbuild, hvalid⟩ := hcb
      have hsync : _sync_users_and_groups b ac rd
          = ([Event.call (Call.sync b ac rd)], .ok ()) := by
        simp [_sync_users_and_groups, hvalid]
      simp [syncBatches, hbuild, hsync, ih _ hrest]

/-- C1 amended: for a positive batch size (and a well-formed container: user
keys are the lowercased user names and are distinct, group keys are the group
names, every referenced group exists, and — so that every batch passes the
per-batch validation gate — groups carry no parent groups), the batched sync
succeeds and issues exactly one sync call per slice, in first-come order.
The slices partition get_users in order, each is non-empty of at most
batch_size users, and all but the last have exactly batch_size users.  Each
dispatched batch holds exactly its slice's users (keyed by lowercased name, in
slice order) plus exactly the groups DIRECTLY referenced by those users,
copied from the source container under ignore-on-duplicate; parent groups of
those groups are not included (which is what the counterexample exhibits: with
a parent group present, the batch fails validation and no sync call is issued
at all). -/
theorem C1_batched_sync_partition (users_and_groups : UsersAndGroups)
    (apply_changes : Bool) (batch_size : Int) (remote : UsersAndGroups)
    (pw : String → PwOutcome)
    (hb : 0 < batch_size)
    (hukeys : ∀ p ∈ users_and_groups.users, p.1 = pyLower p.2.name)
    (hund : (users_and_groups.users.map Prod.fst).Nodup)
    (hgkeys : ∀ p ∈ users_and_groups.groups, p.1 = p.2.name)
    (hrefs : ∀ p ∈ users_and_groups.users, ∀ gn ∈ p.2.groupNames,
        (users_and_groups.get_group gn).isSome = true)
    (hnopar : ∀ p ∈ users_and_groups.groups, p.2.groupNames = []) :
    ∃ bs : List UsersAndGroups,
      (sync_users_and_groups users_and_groups apply_changes false batch_size
          false false false false remote pw).2 = .ok ()
      ∧ (sync_users_and_groups users_and_groups apply_changes false batch_size
          false false false false remote pw).1
          = bs.map (fun b => Event.call (Call.sync b apply_changes false))
      ∧ bs.length = (chunksOf batch_size.toNat users_and_groups.get_users).length
      ∧ (chunksOf batch_size.toNat users_and_groups.get_users).flatten
          = users_and_groups.get_users
      ∧ (∀ c ∈ chunksOf batch_size.toNat users_and_groups.get_users,
          c ≠ [] ∧ c.length ≤ batch_size.toNat)
      ∧ (∀ c ∈ (chunksOf batch_size.toNat users_and_groups.get_users).dropLast,
          c.length = batch_size.toNat)
      ∧ List.Forall₂ (fun c b =>
            b.users = c.map (fun u => (pyLower u.name, u))
            ∧ (∀ kg, kg ∈ b.groups
                ↔ kg.1 ∈ c.flatMap (fun u => u.groupNames)
                  ∧ users_and_groups.get_group kg.1 = some kg.2))
          (chunksOf batch_size.toNat users_and_groups.get_users) bs := by
  have hbn : 0 < batch_size.toNat := by omega
  have husers_all : ∀ u ∈ users_and_groups.get_users,
      users_and_groups.get_user u.name = some u := by
    intro u hu
    obtain ⟨p, hp, hpu⟩ := List.mem_map.mp hu
    have hkey := hukeys p hp
    unfold UsersAndGroups.get_user
    apply odGet_eq_some_of_mem_nodup _ _ _ _ hund
    rw [← hpu, ← hkey]
    exact hp
  have hrefs_all : ∀ u ∈ users_and_groups.get_users, ∀ gn ∈ u.groupNames,
      (users_and_groups.get_group gn).isSome = true := by
    intro u hu gn hgn
    obtain ⟨p, hp, hpu⟩ := List.mem_map.mp hu
    exact hrefs p hp gn (by rw [hpu]; exact hgn)
  have hgetnd : (users_and_groups.get_users.map (fun u => pyLower u.name)).Nodup := by
    have heq : users_and_groups.get_users.map (fun u => pyLower u.name)
        = users_and_groups.users.map Prod.fst := by
      unfold UsersAndGroups.get_users
      rw [List.map_map]
      symm
      apply List.map_congr_left
      intro p hp
      exact hukeys p hp
    rw [heq]
    exact hund
  have hchunk : ∀ c ∈ chunksOf batch_size.toNat users_and_groups.get_users,
      ∃ B, buildBatch users_and_groups c = .ok B
        ∧ (B.is_valid).result = true
        ∧ B.users = c.map (fun u => (pyLower u.name, u))
        ∧ (∀ kg, kg ∈ B.groups ↔ kg.1 ∈ c.flatMap (fun u => u.groupNames)
            ∧ users_and_groups.get_group kg.1 = some kg.2) := by
    intro c hc
    have hsubl := chunksOf_sublist batch_size.toNat users_and_groups.get_users c hc
    have hmem : ∀ u ∈ c, u ∈ users_and_groups.get_users := fun u hu => hsubl.mem hu
    have hsnd : (c.map (fun u => pyLower u.name)).Nodup :=
      (hsubl.map (fun u => pyLower u.name)).nodup hgetnd
    obtain ⟨B, hB, huB, hiffB, hval⟩ :=
      buildBatch_spec users_and_groups hgkeys hnopar c
        (fun u hu => husers_all u (hmem u hu))
        (fun u hu gn hgn => hrefs_all u (hmem u hu) gn hgn) hsnd
    exact ⟨B, hB, hval, huB, hiffB⟩
  have hexists : ∀ (L : List (List User)),
      (∀ c ∈ L, ∃ B, buildBatch users_and_groups c = .ok B
        ∧ (B.is_valid).result = true
        ∧ B.users = c.map (fun u => (pyLower u.name, u))
        ∧ (∀ kg, kg ∈ B.groups ↔ kg.1 ∈ c.flatMap (fun u => u.groupNames)
            ∧ users_and_groups.get_group kg.1 = some kg.2)) →
      ∃ bs, List.Forall₂ (fun c B => buildBatch users_and_groups c = .ok B
        ∧ (B.is_valid).result = true
        ∧ B.users = c.map (fun u => (pyLower u.name, u))
        ∧ (∀ kg, kg ∈ B.groups ↔ kg.1 ∈ c.flatMap (fun u => u.groupNames)
            ∧ users_and_groups.get_group kg.1 = some kg.2)) L bs := by
    intro L
    induction L with
    | nil => exact fun _ => ⟨[], List.Forall₂.nil⟩
    | cons c cs ihL =>
      intro h
      obtain ⟨B, hB⟩ := h c (by simp)
      obtain ⟨bs2, hbs2⟩ := ihL (fun a ha => h a (by simp [ha]))
      exact ⟨B :: bs2, List.Forall₂.cons hB hbs2⟩
  obtain ⟨bs, hbs⟩ := hexists _ hchunk
  have hsb := syncBatches_all_ok users_and_groups apply_changes false _ bs
    (hbs.imp (fun a b h => ⟨h.1, h.2.1⟩))
  have hd := sync_dispatch_eq users_and_groups apply_changes batch_size remote pw
  rw [if_pos hb] at hd
  refine ⟨bs, ?_, ?_, ?_, ?_, ?_, ?_, ?_⟩
  · rw [hd, hsb]
  · rw [hd, hsb]
  · exact hbs.length_eq.symm
  · exact chunksOf_flatten _ _
  · exact chunksOf_mem_props _ hbn _
  · exact chunksOf_dropLast_full _ hbn _
  · exact hbs.imp (fun a b h => ⟨h.2.2.1, h.2.2.2⟩)

/-- The container refuting C1's transitive-closure wording: u1 references g1,
g1 has parent group g2, and g2 exists, so the container as a whole is valid. -/
def exC1ugs : UsersAndGroups :=
  containerOf [uN "u1" ["g1"]] [gN "g1" ["g2"], gN "g2" []]

/-- C1 counterexample: the claim says each batch's UsersAndGroups contains the
slice's users plus, transitively, their referenced groups including parent
groups of those groups, and that one sync call is issued per slice.  On
exC1ugs (valid as a whole) with batch_size 1, the code only copies the
DIRECTLY referenced group g1 into the batch, not its parent g2; the batch
{u1, g1} therefore fails validation and the run aborts with no sync call at
all, instead of the one sync call containing u1, g1 and g2 that the claim
predicts. -/
theorem C1_counterexample_no_transitive_groups :
    (exC1ugs.is_valid).result = true
    ∧ sync_users_and_groups exC1ugs true false 1 false false false false emptyUGs
        (fun _ => PwOutcome.success) = ([], .error "Invalid users and groups") := by
  have h : chunksOf (1 : Nat) exC1ugs.get_users = [[uN "u1" ["g1"]]] := by
    simp [chunksOf, exC1ugs, containerOf, UsersAndGroups.get_users]
  refine ⟨by decide, ?_⟩
  simp only [sync_users_and_groups]
  norm_num
  rw [h]
  decide

/-- Concrete well-formed container for the C1 witness: five users in
first-come order a, b, c, d, e; a and b reference group g1, which has no
parent group. -/
def exC1w : UsersAndGroups :=
  containerOf [uN "a" ["g1"], uN "b" ["g1"], uN "c" [], uN "d" [], uN "e" []]
    [gN "g1" []]

/-- Witness for C1 at exC1w with batch_size 2 (five users give three slices of
sizes 2, 2, 1), the hypotheses discharged concretely. -/
theorem C1_batched_sync_partition_witness :
    (0 : Int) < 2
    ∧ (∀ p ∈ exC1w.users, p.1 = pyLower p.2.name)
    ∧ (exC1w.users.map Prod.fst).Nodup
    ∧ (∀ p ∈ exC1w.groups, p.1 = p.2.name)
    ∧ (∀ p ∈ exC1w.users, ∀ gn ∈ p.2.groupNames,
        (exC1w.get_group gn).isSome = true)
    ∧ (∀ p ∈ exC1w.groups, p.2.groupNames = [])
    ∧ (∃ bs : List UsersAndGroups,
        (sync_users_and_groups exC1w true false 2
            false false false false emptyUGs (fun _ => PwOutcome.success)).2 = .ok ()
        ∧ (sync_users_and_groups exC1w true false 2
            false false false false emptyUGs (fun _ => PwOutcome.success)).1
            = bs.map (fun b => Event.call (Call.sync b true false))
        ∧ bs.length = (chunksOf (2 : Int).toNat exC1w.get_users).length
        ∧ (chunksOf (2 : Int).toNat exC1w.get_users).flatten = exC1w.get_users
        ∧ (∀ c ∈ chunksOf (2 : Int).toNat exC1w.get_users,
            c ≠ [] ∧ c.length ≤ (2 : Int).toNat)
        ∧ (∀ c ∈ (chunksOf (2 : Int).toNat exC1w.get_users).dropLast,
            c.length = (2 : Int).toNat)
        ∧ List.Forall₂ (fun c b =>
              b.users = c.map (fun u => (pyLower u.name, u))
              ∧ (∀ kg, kg ∈ b.groups
                  ↔ kg.1 ∈ c.flatMap (fun u => u.groupNames)
                    ∧ exC1w.get_group kg.1 = some kg.2))
            (chunksOf (2 : Int).toNat exC1w.get_users) bs) :=
  ⟨by decide, by decide, by decide, by decide, by decide, by decide,
   C1_batched_sync_partition exC1w true 2 emptyUGs (fun _ => PwOutcome.success)
     (by decide) (by decide) (by decide) (by decide) (by decide) (by decide)⟩

/-- The container refuting C5: one user whose name is the empty string.  The
empty name is trimmed, the container has no dangling references, yet the name
attribute is falsy and therefore omitted from the serialized record. -/
def exC5ugs : UsersAndGroups := containerOf [uN "" []] []

/-- C5 counterexample: the claim quantifies over every valid UsersAndGroups
with trimmed names.  For a user named "" the serializer omits the falsy name
attribute, and reloading the record crashes (User(name=None) calls
None.strip()), so the round trip reproduces nothing at all instead of the
user-name set. -/
theorem C5_counterexample_empty_name :
    (exC5ugs.is_valid).result = true
    ∧ (∀ p ∈ exC5ugs.users, pyStrip p.2.name = p.2.name)
    ∧ emptyUGs.load_from_json exC5ugs.to_json = .error "AttributeError" := by
  decide

theorem optStrOpt_idem (v : Option String) : optStrOpt (optStrOpt v) = optStrOpt v := by
  cases v with
  | none => rfl
  | some s =>
    show optStrOpt (strOpt s) = strOpt s
    unfold strOpt
    by_cases h : s = ""
    · simp [h, optStrOpt]
    · simp [h, optStrOpt, strOpt]

theorem group_roundtrip (g : Group) (h1 : pyStrip g.name = g.name)
    (h2 : g.name ≠ "") :
    ∃ g2, Group.create_from_json g.to_json = .ok g2
      ∧ g2.name = g.name ∧ g2.groupNames = g.groupNames
      ∧ optStrOpt g2.visibility = optStrOpt g.visibility := by
  have hname : (g.to_json).name = some g.name := by
    show strOpt g.name = some g.name
    simp [strOpt, h2]
  refine ⟨mkGroup g.name (g.to_json).displayName (g.to_json).description
      (g.to_json).groupNames (g.to_json).visibility none none, ?_, ?_, ?_, ?_⟩
  · simp [Group.create_from_json, hname]
  · show pyStrip g.name = g.name
    exact h1
  · show (match (g.to_json).groupNames with
      | none => []
      | some gns => gns) = g.groupNames
    show (match listOpt g.groupNames with
      | none => []
      | some gns => gns) = g.groupNames
    unfold listOpt
    by_cases h : g.groupNames = []
    · simp [h]
    · simp [h]
  · show optStrOpt (optStrOpt g.visibility) = optStrOpt g.visibility
    exact optStrOpt_idem _

theorem user_roundtrip (u : User) (h1 : pyStrip u.name = u.name)
    (h2 : u.name ≠ "") :
    ∃ u2, User.create_from_json u.to_json = .ok u2
      ∧ u2.name = u.name ∧ u2.groupNames = u.groupNames
      ∧ optStrOpt u2.visibility = optStrOpt u.visibility := by
  have hname : (u.to_json).name = some u.name := by
    show strOpt u.name = some u.name
    simp [strOpt, h2]
  refine ⟨mkUser u.name (u.to_json).password (u.to_json).mail
      (u.to_json).displayName (u.to_json).groupNames (u.to_json).visibility none none,
      ?_, ?_, ?_, ?_⟩
  · simp [User.create_from_json, hname]
  · show pyStrip u.name = u.name
    exact h1
  · show (match listOpt u.groupNames with
      | none => []
      | some gns => gns) = u.groupNames
    unfold listOpt
    by_cases h : u.groupNames = []
    · simp [h]
    · simp [h]
  · show optStrOpt (optStrOpt u.visibility) = optStrOpt u.visibility
    exact optStrOpt_idem _

theorem load_from_json_append (a b : List PrincipalRec) :
    ∀ (acc : UsersAndGroups),
    acc.load_from_json (a ++ b)
      = match acc.load_from_json a with
        | .error e => .error e
        | .ok m => m.load_from_json b := by
  induction a with
  | nil =>
    intro acc
    simp [UsersAndGroups.load_from_json]
  | cons r rs ih =>
    intro acc
    rw [List.cons_append]
    cases hp : r.principalTypeEnum with
    | none => simp [UsersAndGroups.load_from_json, hp]
    | some t =>
      by_cases hgr : pyEndsWith t "_GROUP"
      · cases hc : Group.create_from_json r with
        | error e => simp [UsersAndGroups.load_from_json, hp, hgr, hc]
        | ok g =>
          cases ha : acc.add_group g DupPolicy.RAISE_ERROR_ON_DUPLICATE with
          | error e => simp [UsersAndGroups.load_from_json, hp, hgr, hc, ha]
          | ok acc2 => simp [UsersAndGroups.load_from_json, hp, hgr, hc, ha, ih]
      · by_cases hus : pyEndsWith t "_USER"
        · cases hc : User.create_from_json r with
          | error e => simp [UsersAndGroups.load_from_json, hp, hgr, hus, hc]
          | ok u =>
            cases ha : acc.add_user u DupPolicy.RAISE_ERROR_ON_DUPLICATE with
            | error e => simp [UsersAndGroups.load_from_json, hp, hgr, hus, hc, ha]
            | ok acc2 => simp [UsersAndGroups.load_from_json, hp, hgr, hus, hc, ha, ih]
        · simp [UsersAndGroups.load_from_json, hp, hgr, hus, ih]

theorem forall₂_mem_left {R : α → β → Prop} :
    ∀ {l1 : List α} {l2 : List β}, List.Forall₂ R l1 l2 →
    ∀ a ∈ l1, ∃ b ∈ l2, R a b := by
  intro l1
  induction l1 with
  | nil => intro l2 h a ha; simp at ha
  | cons x xs ih =>
    intro l2 h a ha
    cases h with
    | cons hxy hrest =>
      rcases List.mem_cons.mp ha with heq | hmem
      · subst heq
        exact ⟨_, by simp, hxy⟩
      · obtain ⟨b, hb, hr⟩ := ih hrest a hmem
        exact ⟨b, by simp [hb], hr⟩

theorem load_group_recs (gs : List Group) :
    ∀ (acc : UsersAndGroups),
    (∀ g ∈ gs, pyStrip g.name = g.name ∧ g.name ≠ "") →
    (∀ g ∈ gs, g.principalTypeEnum = "LOCAL_GROUP") →
    ((gs.map (fun g => g.name)).Nodup) →
    (∀ g ∈ gs, acc.get_group g.name = none) →
    ∃ news, acc.load_from_json (gs.map Group.to_json)
        = .ok ⟨acc.users, acc.groups ++ news⟩
      ∧ news.map Prod.fst = gs.map (fun g => g.name)
      ∧ List.Forall₂ (fun g p => p.1 = g.name ∧ p.2.name = g.name
          ∧ p.2.groupNames = g.groupNames
          ∧ optStrOpt p.2.visibility = optStrOpt g.visibility) gs news := by
  induction gs with
  | nil =>
    intro acc htrim hpt hnd hdisj
    refine ⟨[], ?_, by simp, List.Forall₂.nil⟩
    simp [UsersAndGroups.load_from_json]
  | cons g rest ih =>
    intro acc htrim hpt hnd hdisj
    obtain ⟨h1, h2⟩ := htrim g (by simp)
    obtain ⟨g2, hcreate, hg2name, hg2gns, hg2vis⟩ := group_roundtrip g h1 h2
    have hdisp : (g.to_json).principalTypeEnum = some "LOCAL_GROUP" := by
      show strOpt g.principalTypeEnum = some "LOCAL_GROUP"
      rw [hpt g (by simp)]
      decide
    have hget : acc.get_group g2.name = none := by
      rw [hg2name]
      exact hdisj g (by simp)
    have hfind : acc.groups.find? (fun p => p.1 == g2.name) = none :=
      find?_eq_none_of_not_mem _ _ ((odGet_eq_none_iff _ _).mp hget)
    have hadd : acc.add_group g2 DupPolicy.RAISE_ERROR_ON_DUPLICATE
        = .ok ⟨acc.users, acc.groups ++ [(g2.name, g2)]⟩ := by
      simp [UsersAndGroups.add_group, hget, odSet, hfind]
    have hstep : acc.load_from_json ((g :: rest).map Group.to_json)
        = UsersAndGroups.load_from_json ⟨acc.users, acc.groups ++ [(g2.name, g2)]⟩
            (rest.map Group.to_json) := by
      have hisg : pyEndsWith "LOCAL_GROUP" "_GROUP" = true := by decide
      rw [List.map_cons]
      simp [UsersAndGroups.load_from_json, hdisp, hisg, hcreate, hadd]
    have hdisj2 : ∀ a ∈ rest, (⟨acc.users, acc.groups ++ [(g2.name, g2)]⟩ :
        UsersAndGroups).get_group a.name = none := by
      intro a ha
      show odGet (acc.groups ++ [(g2.name, g2)]) a.name = none
      rw [odGet_append]
      have hd1 : odGet acc.groups a.name = none := hdisj a (by simp [ha])
      have hane : g2.name ≠ a.name := by
        rw [hg2name]
        simp only [List.map_cons, List.nodup_cons] at hnd
        intro heq
        exact hnd.1 (List.mem_map.mpr ⟨a, ha, heq.symm⟩)
      have hd2 : odGet [(g2.name, g2)] a.name = none := by
        rw [odGet_cons]
        simp [hane, odGet]
      rw [hd1, hd2]
      rfl
    obtain ⟨news, hload, hkeys, hfa⟩ :=
      ih ⟨acc.users, acc.groups ++ [(g2.name, g2)]⟩
        (fun a ha => htrim a (by simp [ha]))
        (fun a ha => hpt a (by simp [ha]))
        (by simp only [List.map_cons, List.nodup_cons] at hnd; exact hnd.2)
        hdisj2
    refine ⟨(g2.name, g2) :: news, ?_, ?_, ?_⟩
    · rw [hstep, hload]
      simp
    · simp [hkeys, hg2name]
    · exact List.Forall₂.cons ⟨by simp [hg2name], hg2name, hg2gns, hg2vis⟩ hfa

theorem load_user_recs (us : List User) :
    ∀ (acc : UsersAndGroups),
    (∀ u ∈ us, pyStrip u.name = u.name ∧ u.name ≠ "") →
    (∀ u ∈ us, u.principalTypeEnum = "LOCAL_USER") →
    ((us.map (fun u => pyLower u.name)).Nodup) →
    (∀ u ∈ us, acc.get_user u.name = none) →
    ∃ news, acc.load_from_json (us.map User.to_json)
        = .ok ⟨acc.users ++ news, acc.groups⟩
      ∧ news.map Prod.fst = us.map (fun u => pyLower u.name)
      ∧ List.Forall₂ (fun u p => p.1 = pyLower u.name ∧ p.2.name = u.name
          ∧ p.2.groupNames = u.groupNames
          ∧ optStrOpt p.2.visibility = optStrOpt u.visibility) us news := by
  induction us with
  | nil =>
    intro acc htrim hpt hnd hdisj
    refine ⟨[], ?_, by simp, List.Forall₂.nil⟩
    simp [UsersAndGroups.load_from_json]
  | cons u rest ih =>
    intro acc htrim hpt hnd hdisj
    obtain ⟨h1, h2⟩ := htrim u (by simp)
    obtain ⟨u2, hcreate, hu2name, hu2gns, hu2vis⟩ := user_roundtrip u h1 h2
    have hdisp : (u.to_json).principalTypeEnum = some "LOCAL_USER" := by
      show strOpt u.principalTypeEnum = some "LOCAL_USER"
      rw [hpt u (by simp)]
      decide
    have hnotgroup : pyEndsWith "LOCAL_USER" "_GROUP" = false := by decide
    have hisuser : pyEndsWith "LOCAL_USER" "_USER" = true := by decide
    have hget : acc.get_user (pyLower u2.name) = none := by
      unfold UsersAndGroups.get_user
      rw [pyLower_idem]
      rw [hu2name]
      exact hdisj u (by simp)
    have hfind : acc.users.find? (fun p => p.1 == pyLower u2.name) = none := by
      apply find?_eq_none_of_not_mem
      apply (odGet_eq_none_iff _ _).mp
      have := hget
      unfold UsersAndGroups.get_user at this
      rw [pyLower_idem] at this
      exact this
    have hadd : acc.add_user u2 DupPolicy.RAISE_ERROR_ON_DUPLICATE
        = .ok ⟨acc.users ++ [(pyLower u2.name, u2)], acc.groups⟩ := by
      simp [UsersAndGroups.add_user, hget, odSet, hfind]
    have hstep : acc.load_from_json ((u :: rest).map User.to_json)
        = UsersAndGroups.load_from_json
            ⟨acc.users ++ [(pyLower u2.name, u2)], acc.groups⟩
            (rest.map User.to_json) := by
      rw [List.map_cons]
      simp [UsersAndGroups.load_from_json, hdisp, hnotgroup, hisuser, hcreate, hadd]
    have hdisj2 : ∀ a ∈ rest, (⟨acc.users ++ [(pyLower u2.name, u2)], acc.groups⟩ :
        UsersAndGroups).get_user a.name = none := by
      intro a ha
      show odGet (acc.users ++ [(pyLower u2.name, u2)]) (pyLower a.name) = none
      rw [odGet_append]
      have hd1 : odGet acc.users (pyLower a.name) = none := hdisj a (by simp [ha])
      have hane : pyLower u2.name ≠ pyLower a.name := by
        rw [hu2name]
        simp only [List.map_cons, List.nodup_cons] at hnd
        intro heq
        exact hnd.1 (List.mem_map.mpr ⟨a, ha, heq.symm⟩)
      have hd2 : odGet [(pyLower u2.name, u2)] (pyLower a.name) = none := by
        rw [odGet_cons]
        simp [hane, odGet]
      rw [hd1, hd2]
      rfl
    obtain ⟨news, hload, hkeys, hfa⟩ :=
      ih ⟨acc.users ++ [(pyLower u2.name, u2)], acc.groups⟩
        (fun a ha => htrim a (by simp [ha]))
        (fun a ha => hpt a (by simp [ha]))
        (by simp only [List.map_cons, List.nodup_cons] at hnd; exact hnd.2)
        hdisj2
    refine ⟨(pyLower u2.name, u2) :: news, ?_, ?_, ?_⟩
    · rw [hstep, hload]
      simp
    · simp [hkeys, hu2name]
    · exact List.Forall₂.cons ⟨by simp [hu2name], hu2name, hu2gns, hu2vis⟩ hfa

/-- C5 amended: for a well-formed valid container whose user and group names
are trimmed and NON-EMPTY (the counterexample shows an empty name breaks the
round trip because the falsy name attribute is omitted), loading to_json(x)
into an empty container succeeds and reproduces the user keys, the group
keys, every principal's name and group-name references exactly, and every
principal's visibility up to the documented falsy-field omission (an empty
visibility string and an absent one both reload as absent). -/
theorem C5_roundtrip_reproduces (x : UsersAndGroups)
    (hvalid : (x.is_valid).result = true)
    (hukeys : ∀ p ∈ x.users, p.1 = pyLower p.2.name)
    (hund : (x.users.map Prod.fst).Nodup)
    (hgkeys : ∀ p ∈ x.groups, p.1 = p.2.name)
    (hgnd : (x.groups.map Prod.fst).Nodup)
    (hutype : ∀ p ∈ x.users, p.2.principalTypeEnum = "LOCAL_USER")
    (hgtype : ∀ p ∈ x.groups, p.2.principalTypeEnum = "LOCAL_GROUP")
    (hutrim : ∀ p ∈ x.users, pyStrip p.2.name = p.2.name ∧ p.2.name ≠ "")
    (hgtrim : ∀ p ∈ x.groups, pyStrip p.2.name = p.2.name ∧ p.2.name ≠ "") :
    ∃ y, emptyUGs.load_from_json x.to_json = .ok y
      ∧ y.users.map Prod.fst = x.users.map Prod.fst
      ∧ y.groups.map Prod.fst = x.groups.map Prod.fst
      ∧ (∀ p ∈ x.users, ∃ u, (p.1, u) ∈ y.users ∧ u.name = p.2.name
          ∧ u.groupNames = p.2.groupNames
          ∧ optStrOpt u.visibility = optStrOpt p.2.visibility)
      ∧ (∀ p ∈ x.groups, ∃ g, (p.1, g) ∈ y.groups ∧ g.name = p.2.name
          ∧ g.groupNames = p.2.groupNames
          ∧ optStrOpt g.visibility = optStrOpt p.2.visibility) := by
  have hj : x.to_json
      = (x.get_groups.map Group.to_json) ++ (x.get_users.map User.to_json) := by
    unfold UsersAndGroups.to_json UsersAndGroups.get_groups UsersAndGroups.get_users
    rw [List.map_map, List.map_map]
    rfl
  have hgnames : x.get_groups.map (fun g => g.name) = x.groups.map Prod.fst := by
    unfold UsersAndGroups.get_groups
    rw [List.map_map]
    symm
    apply List.map_congr_left
    intro p hp
    exact hgkeys p hp
  have hunames : x.get_users.map (fun u => pyLower u.name) = x.users.map Prod.fst := by
    unfold UsersAndGroups.get_users
    rw [List.map_map]
    symm
    apply List.map_congr_left
    intro p hp
    exact hukeys p hp
  obtain ⟨newsG, hloadG, hkeysG, hfaG⟩ :=
    load_group_recs x.get_groups emptyUGs
      (by
        intro g hg
        obtain ⟨p, hp, hpg⟩ := List.mem_map.mp hg
        rw [← hpg]
        exact hgtrim p hp)
      (by
        intro g hg
        obtain ⟨p, hp, hpg⟩ := List.mem_map.mp hg
        rw [← hpg]
        exact hgtype p hp)
      (by rw [hgnames]; exact hgnd)
      (by intro g hg; rfl)
  have hloadG2 : emptyUGs.load_from_json (x.get_groups.map Group.to_json)
      = .ok ⟨[], newsG⟩ := by
    rw [hloadG]
    rfl
  obtain ⟨newsU, hloadU, hkeysU, hfaU⟩ :=
    load_user_recs x.get_users (⟨[], newsG⟩ : UsersAndGroups)
      (by
        intro u hu
        obtain ⟨p, hp, hpu⟩ := List.mem_map.mp hu
        rw [← hpu]
        exact hutrim p hp)
      (by
        intro u hu
        obtain ⟨p, hp, hpu⟩ := List.mem_map.mp hu
        rw [← hpu]
        exact hutype p hp)
      (by rw [hunames]; exact hund)
      (by intro u hu; rfl)
  refine ⟨⟨newsU, newsG⟩, ?_, ?_, ?_, ?_, ?_⟩
  · rw [hj, load_from_json_append, hloadG2]
    show ({ users := ([] : List (String × User)), groups := newsG } :
        UsersAndGroups).load_from_json (x.get_users.map User.to_json)
      = .ok ⟨newsU, newsG⟩
    rw [hloadU]
    simp
  · show newsU.map Prod.fst = x.users.map Prod.fst
    rw [hkeysU, hunames]
  · show newsG.map Prod.fst = x.groups.map Prod.fst
    rw [hkeysG, hgnames]
  · intro p hp
    have hmem : p.2 ∈ x.get_users := List.mem_map.mpr ⟨p, hp, rfl⟩
    obtain ⟨q, hq, hq1, hq2, hq3, hq4⟩ := forall₂_mem_left hfaU p.2 hmem
    refine ⟨q.2, ?_, hq2, hq3, hq4⟩
    have : (p.1, q.2) = q := by
      apply Prod.ext
      · rw [hukeys p hp, ← hq1]
      · rfl
    rw [this]
    exact hq
  · intro p hp
    have hmem : p.2 ∈ x.get_groups := List.mem_map.mpr ⟨p, hp, rfl⟩
    obtain ⟨q, hq, hq1, hq2, hq3, hq4⟩ := forall₂_mem_left hfaG p.2 hmem
    refine ⟨q.2, ?_, hq2, hq3, hq4⟩
    have : (p.1, q.2) = q := by
      apply Prod.ext
      · rw [hgkeys p hp, ← hq1]
      · rfl
    rw [this]
    exact hq

/-- Concrete container for the C5 witness: a mixed-case user referencing one
group. -/
def exC5w : UsersAndGroups := containerOf [uN "Alice" ["g1"]] [gN "g1" []]

/-- Witness for C5 at exC5w, with every hypothesis discharged concretely. -/
theorem C5_roundtrip_reproduces_witness :
    (exC5w.is_valid).result = true
    ∧ (∀ p ∈ exC5w.users, p.1 = pyLower p.2.name)
    ∧ (exC5w.users.map Prod.fst).Nodup
    ∧ (∀ p ∈ exC5w.groups, p.1 = p.2.name)
    ∧ (exC5w.groups.map Prod.fst).Nodup
    ∧ (∀ p ∈ exC5w.users, p.2.principalTypeEnum = "LOCAL_USER")
    ∧ (∀ p ∈ exC5w.groups, p.2.principalTypeEnum = "LOCAL_GROUP")
    ∧ (∀ p ∈ exC5w.users, pyStrip p.2.name = p.2.name ∧ p.2.name ≠ "")
    ∧ (∀ p ∈ exC5w.groups, pyStrip p.2.name = p.2.name ∧ p.2.name ≠ "")
    ∧ (∃ y, emptyUGs.load_from_json exC5w.to_json = .ok y
        ∧ y.users.map Prod.fst = exC5w.users.map Prod.fst
        ∧ y.groups.map Prod.fst = exC5w.groups.map Prod.fst
        ∧ (∀ p ∈ exC5w.users, ∃ u, (p.1, u) ∈ y.users ∧ u.name = p.2.name
            ∧ u.groupNames = p.2.groupNames
            ∧ optStrOpt u.visibility = optStrOpt p.2.visibility)
        ∧ (∀ p ∈ exC5w.groups, ∃ g, (p.1, g) ∈ y.groups ∧ g.name = p.2.name
            ∧ g.groupNames = p.2.groupNames
            ∧ optStrOpt g.visibility = optStrOpt p.2.visibility)) :=
  ⟨by decide, by decide, by decide, by decide, by decide, by decide, by decide,
   by decide, by decide,
   C5_roundtrip_reproduces exC5w (by decide) (by decide) (by decide) (by decide)
     (by decide) (by decide) (by decide) (by decide) (by decide)⟩

end Tsut
